import Mathlib

/-!
Verification of the GREG OpenGL loader generator (`src/greg.cpp`).

The registry document is embedded as a tree of XML-like nodes mirroring the
pugixml view the program uses: elements carry a name, an ordered attribute
list and ordered children; pcdata nodes carry text.  The manifest resolver
(`generate_manifest`), the output assembler (`generate_output`) and the
template substitution step (`generate_content`) are translated below
function by function from the C++ source.

`std::set<wire::string>` fields of `Manifest` are modelled as duplicate-free
lists: `insertName` appends a name only when absent (as `std::set::insert`
leaves the set unchanged on a hit) and `eraseName` filters it out (as
`std::set::erase`).  The program only ever queries those sets through
`count`, i.e. membership, so the list model is observationally faithful.
Diagnostic lines printed to standard output are collected in a list.
-/

/-- An XML node as seen through pugixml: either a pcdata text node or an
element with a tag name, attributes and ordered children. -/
inductive XmlNode where
  | text (value : String)
  | elem (tag : String) (attrs : List (String × String)) (children : List XmlNode)

/-- `node.name()`: the tag of an element, `""` for pcdata. -/
def nodeName : XmlNode → String
  | XmlNode.text _ => ""
  | XmlNode.elem tag _ _ => tag

/-- `node.value()`: the text of a pcdata node, `""` for elements. -/
def nodeValue : XmlNode → String
  | XmlNode.text v => v
  | XmlNode.elem _ _ _ => ""

/-- The ordered child list of a node (pcdata nodes have none). -/
def nodeChildren : XmlNode → List XmlNode
  | XmlNode.text _ => []
  | XmlNode.elem _ _ cs => cs

/-- `node.attribute(k)`: the first attribute named `k`, if any. -/
def attrFind (k : String) : XmlNode → Option String
  | XmlNode.text _ => none
  | XmlNode.elem _ attrs _ => (attrs.find? (fun p => p.1 == k)).map (fun p => p.2)

/-- `node.attribute(k).value()`: pugixml yields `""` for a missing attribute. -/
def attr (k : String) (n : XmlNode) : String :=
  (attrFind k n).getD ""

/-- `node.children(tag)`: all children with the given element tag. -/
def childrenNamed (tag : String) (n : XmlNode) : List XmlNode :=
  (nodeChildren n).filter (fun c => nodeName c == tag)

/-- `node.child(tag)`: the first child with the given element tag. -/
def firstChildNamed (tag : String) (n : XmlNode) : Option XmlNode :=
  (nodeChildren n).find? (fun c => nodeName c == tag)

/-- Whether a node is a pcdata node. -/
def isText : XmlNode → Bool
  | XmlNode.text _ => true
  | XmlNode.elem _ _ _ => false

/-- `node.child_value()`: the value of the first pcdata child, `""` if none. -/
def childValue (n : XmlNode) : String :=
  (((nodeChildren n).find? isText).map nodeValue).getD ""

/-- `node.child_value(tag)`: `child(tag).child_value()`, with pugixml's
null-node convention yielding `""` when the child is missing. -/
def childValueNamed (tag : String) (n : XmlNode) : String :=
  ((firstChildNamed tag n).map childValue).getD ""

/-- `/registry/feature` in document order. -/
def selectFeatures (doc : XmlNode) : List XmlNode :=
  ((childrenNamed "registry" doc).map (childrenNamed "feature")).flatten

/-- `/registry/extensions/extension` in document order. -/
def selectExtensions (doc : XmlNode) : List XmlNode :=
  ((((childrenNamed "registry" doc).map (childrenNamed "extensions")).flatten).map
    (childrenNamed "extension")).flatten

/-- `/registry/commands/command` in document order. -/
def selectCommands (doc : XmlNode) : List XmlNode :=
  ((((childrenNamed "registry" doc).map (childrenNamed "commands")).flatten).map
    (childrenNamed "command")).flatten

/-- `/registry/types/type` in document order. -/
def selectTypes (doc : XmlNode) : List XmlNode :=
  ((((childrenNamed "registry" doc).map (childrenNamed "types")).flatten).map
    (childrenNamed "type")).flatten

/-- `/registry/types/type[@requires]`: type elements carrying a `requires`
attribute, in document order. -/
def selectTypesWithRequires (doc : XmlNode) : List XmlNode :=
  (selectTypes doc).filter (fun tn => (attrFind "requires" tn).isSome)

/-- `/registry/enums/enum` in document order. -/
def selectEnums (doc : XmlNode) : List XmlNode :=
  ((((childrenNamed "registry" doc).map (childrenNamed "enums")).flatten).map
    (childrenNamed "enum")).flatten

/-- The `Version` record: a (major, minor) pair of unsigned integers. -/
structure Version where
  major : Nat
  minor : Nat
deriving DecidableEq

/-- The value of a run of decimal digits, 0 for the empty run (a `%u`
conversion that matches nothing leaves the field unset in the C++, which
is undefined behaviour there; the model reads 0). -/
def digitsToNat (ds : List Char) : Nat :=
  ds.foldl (fun n c => n * 10 + (c.toNat - 48)) 0

/-- `Version::Version(const char*)`: `sscanf(string, "%u.%u", ...)` reads the
leading decimal digits as the major number and the digits after the dot as
the minor number. -/
def parseVersion (s : String) : Version :=
  let cs := s.data
  let majorDigits := cs.takeWhile Char.isDigit
  let rest := cs.drop (majorDigits.length + 1)
  let minorDigits := rest.takeWhile Char.isDigit
  { major := digitsToNat majorDigits, minor := digitsToNat minorDigits }

/-- `Version::operator<=`: lexicographic comparison of (major, minor). -/
def leVersion (a b : Version) : Prop :=
  a.major < b.major ∨ (a.major = b.major ∧ a.minor ≤ b.minor)

instance (a b : Version) : Decidable (leVersion a b) := by
  unfold leVersion; infer_instance

/-- The `Target` selection: api name, profile, version ceiling and the
requested extension names (`std::set`, queried only through `count`). -/
structure Target where
  api : String
  profile : String
  version : Version
  extensions : List String

/-- An accepted feature record: name and parsed version. -/
structure Feature where
  name : String
  version : Version
deriving DecidableEq

/-- The resolved `Manifest`: accepted feature records, accepted extension
names, and the three name sets. -/
structure Manifest where
  features : List Feature
  extensions : List String
  types : List String
  commands : List String
  enums : List String
deriving DecidableEq

/-- The default-constructed, empty manifest. -/
def emptyManifest : Manifest :=
  { features := [], extensions := [], types := [], commands := [], enums := [] }

/-- `std::set::insert`: add a name unless it is already present. -/
def insertName (s : List String) (n : String) : List String :=
  if n ∈ s then s else s ++ [n]

/-- `std::set::erase`: drop a name from the set. -/
def eraseName (s : List String) (n : String) : List String :=
  s.filter (fun x => x ≠ n)

/-- `add_to_manifest`: insert the names listed by the `<type>`, `<enum>` and
`<command>` children of a `<require>` element. -/
def add_to_manifest (m : Manifest) (node : XmlNode) : Manifest :=
  let m1 := { m with
    types := (childrenNamed "type" node).foldl
      (fun s c => insertName s (attr "name" c)) m.types }
  let m2 := { m1 with
    enums := (childrenNamed "enum" node).foldl
      (fun s c => insertName s (attr "name" c)) m1.enums }
  { m2 with
    commands := (childrenNamed "command" node).foldl
      (fun s c => insertName s (attr "name" c)) m2.commands }

/-- `remove_from_manifest`: erase the names listed by the children of a
`<remove>` element. -/
def remove_from_manifest (m : Manifest) (node : XmlNode) : Manifest :=
  let m1 := { m with
    types := (childrenNamed "type" node).foldl
      (fun s c => eraseName s (attr "name" c)) m.types }
  let m2 := { m1 with
    enums := (childrenNamed "enum" node).foldl
      (fun s c => eraseName s (attr "name" c)) m1.enums }
  { m2 with
    commands := (childrenNamed "command" node).foldl
      (fun s c => eraseName s (attr "name" c)) m2.commands }

/-- `update_manifest`: apply every `<require>` child, then every `<remove>`
child whose `profile` attribute value (the empty string when the attribute
is absent) equals the target's profile string. -/
def update_manifest (m : Manifest) (target : Target) (node : XmlNode) : Manifest :=
  let m1 := (childrenNamed "require" node).foldl add_to_manifest m
  (childrenNamed "remove" node).foldl
    (fun m2 rn => if attr "profile" rn = target.profile
                  then remove_from_manifest m2 rn else m2) m1

/-- One iteration of the `<feature>` loop of `generate_manifest`. -/
def featureStep (target : Target) (m : Manifest) (fn : XmlNode) : Manifest :=
  let version := parseVersion (attr "number" fn)
  if attr "api" fn = target.api ∧ leVersion version target.version then
    let m1 := update_manifest m target fn
    { m1 with features := m1.features ++ [{ name := attr "name" fn, version := version }] }
  else m

/-- The `<feature>` loop of `generate_manifest`. -/
def featurePass (target : Target) (m : Manifest) (fns : List XmlNode) : Manifest :=
  fns.foldl (featureStep target) m

/-- The diagnostic line printed for an unsupported requested extension. -/
def diagLine (name : String) : String :=
  "Excluding unsupported extension " ++ name ++ "\n"

/-- Split a character list at every pipe character. -/
def splitPipeAux : List Char → List Char → List String
  | [], acc => [String.mk acc.reverse]
  | c :: cs, acc =>
    if c = '|' then String.mk acc.reverse :: splitPipeAux cs []
    else splitPipeAux cs (c :: acc)

/-- `wire::string::split("|")` as used on a `supported` attribute: the
pipe-delimited tokens of the string. -/
def splitPipe (s : String) : List String :=
  splitPipeAux s.data []

/-- One iteration of the `<extension>` loop of `generate_manifest`: the
manifest together with the diagnostic lines printed so far. -/
def extensionStep (target : Target) (acc : Manifest × List String)
    (en : XmlNode) : Manifest × List String :=
  let name := attr "name" en
  if name ∈ target.extensions then
    let n := target.api ++ target.profile
    let p := splitPipe (attr "supported" en)
    if n ∈ p then
      let m1 := update_manifest acc.1 target en
      ({ m1 with extensions := m1.extensions ++ [name] }, acc.2)
    else
      (acc.1, acc.2 ++ [diagLine name])
  else acc

/-- The `<extension>` loop of `generate_manifest`. -/
def extensionPass (target : Target) (acc : Manifest × List String)
    (ens : List XmlNode) : Manifest × List String :=
  ens.foldl (extensionStep target) acc

/-- The prototype name of a `<command>` element:
`cn.child("proto").child_value("name")`. -/
def protoName (cn : XmlNode) : String :=
  ((firstChildNamed "proto" cn).map (childValueNamed "name")).getD ""

/-- The body of the parameter loop: if the `<param>` has a `<ptype>` child,
insert that ptype's pcdata into the types set. -/
def paramTypeInsert (s : List String) (pn : XmlNode) : List String :=
  ((firstChildNamed "ptype" pn).map (fun tn => insertName s (childValue tn))).getD s

/-- One iteration of the `<command>` loop of `generate_manifest`: pull in
the `<ptype>` text of every parameter of a selected command. -/
def commandStep (m : Manifest) (cn : XmlNode) : Manifest :=
  if protoName cn ∈ m.commands then
    { m with types := (childrenNamed "param" cn).foldl paramTypeInsert m.types }
  else m

/-- The `<command>` loop of `generate_manifest`. -/
def commandPass (m : Manifest) (cns : List XmlNode) : Manifest :=
  cns.foldl commandStep m

/-- `api_name`: the `api` attribute of a `<type>` element, or `"gl"` when
the element has no such attribute. -/
def api_name (tn : XmlNode) : String :=
  match attrFind "api" tn with
  | some v => v
  | none => "gl"

/-- `type_name`: the `name` attribute of a `<type>` element, or the pcdata
of its `<name>` child when the attribute is absent. -/
def type_name (tn : XmlNode) : String :=
  match attrFind "name" tn with
  | some v => v
  | none => childValueNamed "name" tn

/-- One iteration of the `type[@requires]` loop of `generate_manifest`. -/
def typeStep (target : Target) (m : Manifest) (tn : XmlNode) : Manifest :=
  if type_name tn ∈ m.types ∧ api_name tn = target.api then
    { m with types := insertName m.types (attr "requires" tn) }
  else m

/-- The `type[@requires]` loop of `generate_manifest`. -/
def typePass (target : Target) (m : Manifest) (tns : List XmlNode) : Manifest :=
  tns.foldl (typeStep target) m

/-- The manifest after the `<feature>` loop of `generate_manifest`. -/
def manifestAfterFeatures (target : Target) (doc : XmlNode) : Manifest :=
  featurePass target emptyManifest (selectFeatures doc)

/-- The manifest and diagnostics after the `<extension>` loop. -/
def manifestAfterExtensions (target : Target) (doc : XmlNode) : Manifest × List String :=
  extensionPass target (manifestAfterFeatures target doc, []) (selectExtensions doc)

/-- The manifest after the `<command>` parameter-type loop. -/
def manifestAfterCommands (target : Target) (doc : XmlNode) : Manifest :=
  commandPass (manifestAfterExtensions target doc).1 (selectCommands doc)

/-- `generate_manifest`: the resolved manifest, paired with the diagnostic
lines printed to standard output along the way. -/
def generate_manifest (target : Target) (doc : XmlNode) : Manifest × List String :=
  (typePass target (manifestAfterCommands target doc) (selectTypesWithRequires doc),
   (manifestAfterExtensions target doc).2)

example :
    (generate_manifest { api := "gl", profile := "", version := ⟨1, 0⟩, extensions := [] }
      (XmlNode.elem "" [] [XmlNode.elem "registry" []
        [XmlNode.elem "feature" [("api", "gl"), ("number", "1.0"), ("name", "GL_VERSION_1_0")]
          [XmlNode.elem "require" [] [XmlNode.elem "command" [("name", "glFoo")] []]]]])).1.commands
    = ["glFoo"] := by decide

/-- `scrape_type_text`: depth-first concatenation of all pcdata of a
`<type>` element, with any `<apientry/>` element rendered as the literal
`GLAPIENTRY` instead of being descended into.  (An element's own `value()`
is the empty string, so only pcdata nodes contribute text.) -/
def scrape_type_text : XmlNode → String
  | XmlNode.text v => v
  | XmlNode.elem tag _ cs =>
    if tag = "apientry" then "GLAPIENTRY"
    else scrapeTypeList cs
where scrapeTypeList : List XmlNode → String
  | [] => ""
  | c :: cs => scrape_type_text c ++ scrapeTypeList cs

/-- `scrape_proto_text`: depth-first concatenation of all pcdata of a
`<proto>` or `<param>` element, skipping any `<name>` element entirely. -/
def scrape_proto_text : XmlNode → String
  | XmlNode.text v => v
  | XmlNode.elem tag _ cs =>
    if tag = "name" then ""
    else scrapeProtoList cs
where scrapeProtoList : List XmlNode → String
  | [] => ""
  | c :: cs => scrape_proto_text c ++ scrapeProtoList cs

/-- `command_params`: the C parameter list of a `<command>` element — each
`<param>` child's scraped proto text, with `", "` prepended whenever the
accumulated text is nonempty, and the whole replaced by `"void"` when the
accumulated text ends up empty. -/
def command_params (node : XmlNode) : String :=
  let result := (childrenNamed "param" node).foldl
    (fun r pn => (if r = "" then r else r ++ ", ") ++ scrape_proto_text pn) ""
  if result = "" then "void" else result

/-- The `Output` buffers: one append-only string per generated artifact
category, plus the API display name. -/
structure Output where
  api_display : String
  type_typedefs : String
  enum_definitions : String
  ext_macroDefs : String
  ver_macroDefs : String
  ext_declarations : String
  ver_declarations : String
  ext_definitions : String
  ver_definitions : String
  ver_loaders : String
  ext_loaders : String
  cmd_typedefs : String
  cmd_declarations : String
  cmd_macroDefs : String
  cmd_definitions : String
  cmd_loaders : String

/-- The default-constructed `Output`: every buffer empty. -/
def emptyOutput : Output :=
  { api_display := "", type_typedefs := "", enum_definitions := "",
    ext_macroDefs := "", ver_macroDefs := "", ext_declarations := "",
    ver_declarations := "", ext_definitions := "", ver_definitions := "",
    ver_loaders := "", ext_loaders := "", cmd_typedefs := "",
    cmd_declarations := "", cmd_macroDefs := "", cmd_definitions := "",
    cmd_loaders := "" }

/-- `boolean_name`: the extension or feature name with a leading `GL_`
replaced by `GREG_`. -/
def booleanName (s : String) : String :=
  if s.startsWith "GL_" then "GREG_" ++ s.drop 3 else s

/-- One iteration of the extension loop of `generate_output`. -/
def outputExtensionStep (o : Output) (extension : String) : Output :=
  let bname := booleanName extension
  { o with
    ext_macroDefs := o.ext_macroDefs ++ "#define " ++ extension ++ " 1\n",
    ext_declarations := o.ext_declarations ++ "extern int " ++ bname ++ ";\n",
    ext_definitions := o.ext_definitions ++ "GREGDEF int " ++ bname ++ " = 0;\n",
    ext_loaders := o.ext_loaders ++ "    " ++ bname ++ " = gregExtensionSupported(\"" ++ extension ++ "\");\n" }

/-- One iteration of the feature loop of `generate_output`. -/
def outputFeatureStep (o : Output) (feature : Feature) : Output :=
  let bname := booleanName feature.name
  { o with
    ver_macroDefs := o.ver_macroDefs ++ "#define " ++ feature.name ++ " 1\n",
    ver_declarations := o.ver_declarations ++ "extern int " ++ bname ++ ";\n",
    ver_definitions := o.ver_definitions ++ "GREGDEF int " ++ bname ++ " = 0;\n",
    ver_loaders := o.ver_loaders ++ "    " ++ bname ++ " = gregVersionSupported(" ++
      toString feature.version.major ++ ", " ++ toString feature.version.minor ++ ");\n" }

/-- One iteration of the `<type>` loop of `generate_output`. -/
def outputTypeStep (manifest : Manifest) (target : Target) (o : Output)
    (tn : XmlNode) : Output :=
  if type_name tn ∈ manifest.types ∧ api_name tn = target.api then
    { o with type_typedefs := o.type_typedefs ++ scrape_type_text tn ++ "\n" }
  else o

/-- One iteration of the `<enum>` loop of `generate_output`. -/
def outputEnumStep (manifest : Manifest) (o : Output) (en : XmlNode) : Output :=
  let nm := attr "name" en
  let vl := attr "value" en
  if nm ∈ manifest.enums then
    { o with enum_definitions := o.enum_definitions ++ "#define " ++ nm ++ " " ++ vl ++ "\n" }
  else o

/-- One iteration of the `<command>` loop of `generate_output`. -/
def outputCommandStep (manifest : Manifest) (o : Output) (cn : XmlNode) : Output :=
  let function_name := protoName cn
  if function_name ∈ manifest.commands then
    let typedef_name := "PFN" ++ function_name.toUpper ++ "PROC"
    let pointer_name := "greg_" ++ function_name
    let proto_text := ((firstChildNamed "proto" cn).map scrape_proto_text).getD ""
    let params := command_params cn
    { o with
      cmd_typedefs := o.cmd_typedefs ++ "typedef " ++ proto_text ++
        " (GLAPIENTRY *" ++ typedef_name ++ ")(" ++ params ++ ");\n",
      cmd_declarations := o.cmd_declarations ++ "extern " ++ typedef_name ++
        " " ++ pointer_name ++ ";\n",
      cmd_macroDefs := o.cmd_macroDefs ++ "#define " ++ function_name ++
        " " ++ pointer_name ++ "\n",
      cmd_definitions := o.cmd_definitions ++ "GREGDEF " ++ typedef_name ++
        " " ++ pointer_name ++ " = NULL;\n",
      cmd_loaders := o.cmd_loaders ++ "    " ++ pointer_name ++ " = (" ++
        typedef_name ++ ") gregGetProcAddress(\"" ++ function_name ++ "\");\n" }
  else o

/-- `generate_output`: assemble every output buffer from the manifest, the
target and the registry document, in the source's loop order. -/
def generate_output (manifest : Manifest) (target : Target) (doc : XmlNode) : Output :=
  let o0 := { emptyOutput with api_display :=
    if target.api = "gl" then "OpenGL"
    else if target.api = "gles1" ∨ target.api = "gles2" then "OpenGL ES"
    else "" }
  let o1 := manifest.extensions.foldl outputExtensionStep o0
  let o2 := manifest.features.foldl outputFeatureStep o1
  let o3 := (selectTypes doc).foldl (outputTypeStep manifest target) o2
  let o4 := (selectEnums doc).foldl (outputEnumStep manifest) o3
  (selectCommands doc).foldl (outputCommandStep manifest) o4

/-- Does the pattern occur at the head of the character list? -/
def headMatch : List Char → List Char → Bool
  | [], _ => true
  | _ :: _, [] => false
  | p :: ps, c :: cs => p == c && headMatch ps cs

/-- Does the pattern occur anywhere in the character list? -/
def containsPat (pat : List Char) : List Char → Bool
  | [] => headMatch pat []
  | c :: cs => headMatch pat (c :: cs) || containsPat pat cs

/-- Modelled from the spec: `wire::string::replace(target, replacement)` is
not part of this repository (wire.hpp is an external string helper); per the
substitution-engine contract it replaces occurrences of the placeholder
left to right, never rescanning inserted replacement text.  The fuel (the
scan never needs more steps than the text has characters, since every step
consumes at least one character for a nonempty pattern) makes the recursion
structural. -/
def replaceAllFuel (pat rep : List Char) : Nat → List Char → List Char
  | _, [] => []
  | 0, s => s
  | fuel + 1, c :: cs =>
    if headMatch pat (c :: cs) then rep ++ replaceAllFuel pat rep fuel (List.drop (pat.length - 1) cs)
    else c :: replaceAllFuel pat rep fuel cs

/-- Replace every occurrence of `pat` by `rep`, scanning left to right. -/
def replaceAll (pat rep s : List Char) : List Char :=
  replaceAllFuel pat rep s.length s

/-- The sixteen placeholder tokens recognized by `generate_content`, in the
order the source applies them. -/
def knownPlaceholders : List String :=
  ["@API_NAME@", "@TYPE_TYPEDEFS@", "@ENUM_DEFINITIONS@", "@EXT_MACROS@",
   "@VER_MACROS@", "@EXT_DECLARATIONS@", "@VER_DECLARATIONS@",
   "@EXT_DEFINITIONS@", "@VER_DEFINITIONS@", "@VER_LOADERS@",
   "@EXT_LOADERS@", "@CMD_TYPEDEFS@", "@CMD_DECLARATIONS@", "@CMD_MACROS@",
   "@CMD_DEFINITIONS@", "@CMD_LOADERS@"]

/-- The placeholder-to-buffer binding list of `generate_content`, in the
order the source applies the sixteen `replace` calls. -/
def placeholderBindings (o : Output) : List (String × String) :=
  [("@API_NAME@", o.api_display),
   ("@TYPE_TYPEDEFS@", o.type_typedefs),
   ("@ENUM_DEFINITIONS@", o.enum_definitions),
   ("@EXT_MACROS@", o.ext_macroDefs),
   ("@VER_MACROS@", o.ver_macroDefs),
   ("@EXT_DECLARATIONS@", o.ext_declarations),
   ("@VER_DECLARATIONS@", o.ver_declarations),
   ("@EXT_DEFINITIONS@", o.ext_definitions),
   ("@VER_DEFINITIONS@", o.ver_definitions),
   ("@VER_LOADERS@", o.ver_loaders),
   ("@EXT_LOADERS@", o.ext_loaders),
   ("@CMD_TYPEDEFS@", o.cmd_typedefs),
   ("@CMD_DECLARATIONS@", o.cmd_declarations),
   ("@CMD_MACROS@", o.cmd_macroDefs),
   ("@CMD_DEFINITIONS@", o.cmd_definitions),
   ("@CMD_LOADERS@", o.cmd_loaders)]

/-- `generate_content` minus the file read: substitute every placeholder in
the template text, in the source's fixed order. -/
def generate_content (o : Output) (tmpl : List Char) : List Char :=
  (placeholderBindings o).foldl (fun text pr => replaceAll pr.1.data pr.2.data text) tmpl

example : command_params (XmlNode.elem "command" [] []) = "void" := by decide

example :
    replaceAll "@X@".data "hi".data "a @X@ b".data = "a hi b".data := by decide

/-!  Helper predicates describing require/remove content, phrased from the
conditions the resolver tests. -/

/-- The command names listed by the `<command>` children of a `<require>`
or `<remove>` element. -/
def cmdNames (node : XmlNode) : List String :=
  (childrenNamed "command" node).map (attr "name")

/-- Some `<require>` child of the element lists the command `s`. -/
def requiresCmd (node : XmlNode) (s : String) : Prop :=
  ∃ rq ∈ childrenNamed "require" node, s ∈ cmdNames rq

/-- Some `<remove>` child whose `profile` attribute value equals the
target's profile lists the command `s` (the condition under which the
resolver applies the removal). -/
def removesCmd (target : Target) (node : XmlNode) (s : String) : Prop :=
  ∃ rn ∈ childrenNamed "remove" node,
    attr "profile" rn = target.profile ∧ s ∈ cmdNames rn

/-- The acceptance test of the `<feature>` loop. -/
def acceptsFeature (target : Target) (fn : XmlNode) : Prop :=
  attr "api" fn = target.api ∧
    leVersion (parseVersion (attr "number" fn)) target.version

/-- The acceptance test of the `<extension>` loop: requested, and the
support token `api ++ profile` occurs among the pipe-delimited tokens of
the `supported` attribute. -/
def acceptsExtension (target : Target) (en : XmlNode) : Prop :=
  attr "name" en ∈ target.extensions ∧
    (target.api ++ target.profile) ∈ splitPipe (attr "supported" en)

instance (node : XmlNode) (s : String) : Decidable (requiresCmd node s) := by
  unfold requiresCmd; infer_instance

instance (target : Target) (node : XmlNode) (s : String) :
    Decidable (removesCmd target node s) := by
  unfold removesCmd; infer_instance

instance (target : Target) (fn : XmlNode) : Decidable (acceptsFeature target fn) := by
  unfold acceptsFeature; infer_instance

instance (target : Target) (en : XmlNode) : Decidable (acceptsExtension target en) := by
  unfold acceptsExtension; infer_instance

/-!  Membership and duplicate-freedom lemmas for the set model. -/

theorem mem_insertName {s n : String} {l : List String} :
    s ∈ insertName l n ↔ s ∈ l ∨ s = n := by
  unfold insertName
  split
  next h =>
    constructor
    · exact Or.inl
    · rintro (hs | rfl)
      · exact hs
      · exact h
  next h => simp [List.mem_append]

theorem mem_eraseName {s n : String} {l : List String} :
    s ∈ eraseName l n ↔ s ∈ l ∧ s ≠ n := by
  simp [eraseName]

theorem nodup_insertName {n : String} {l : List String} (h : l.Nodup) :
    (insertName l n).Nodup := by
  unfold insertName
  split
  next => exact h
  next hn =>
    rw [List.nodup_append]
    refine ⟨h, List.nodup_singleton n, ?_⟩
    intro a ha hb
    rw [List.mem_singleton] at hb
    subst hb
    exact hn ha

theorem nodup_eraseName {n : String} {l : List String} (h : l.Nodup) :
    (eraseName l n).Nodup :=
  h.filter _

theorem mem_foldl_insert (g : XmlNode → String) (s : String) :
    ∀ (cs : List XmlNode) (l : List String),
      (s ∈ cs.foldl (fun l c => insertName l (g c)) l) ↔
        (s ∈ l ∨ ∃ c ∈ cs, g c = s) := by
  intro cs
  induction cs with
  | nil => simp
  | cons c cs ih =>
    intro l
    rw [List.foldl_cons, ih]
    rw [mem_insertName]
    constructor
    · rintro (⟨h | h⟩ | h)
      · exact Or.inl h
      · exact Or.inr ⟨c, by simp, h.symm⟩
      · rcases h with ⟨d, hd, hgd⟩
        exact Or.inr ⟨d, by simp [hd], hgd⟩
    · rintro (h | ⟨d, hd, hgd⟩)
      · exact Or.inl (Or.inl h)
      · rcases List.mem_cons.mp hd with rfl | hd
        · exact Or.inl (Or.inr hgd.symm)
        · exact Or.inr ⟨d, hd, hgd⟩

theorem mem_foldl_erase (g : XmlNode → String) (s : String) :
    ∀ (cs : List XmlNode) (l : List String),
      (s ∈ cs.foldl (fun l c => eraseName l (g c)) l) ↔
        (s ∈ l ∧ ∀ c ∈ cs, g c ≠ s) := by
  intro cs
  induction cs with
  | nil => simp
  | cons c cs ih =>
    intro l
    rw [List.foldl_cons, ih, mem_eraseName]
    constructor
    · rintro ⟨⟨hl, hne⟩, hall⟩
      refine ⟨hl, ?_⟩
      intro d hd
      rcases List.mem_cons.mp hd with rfl | hd
      · exact fun h => hne h.symm
      · exact hall d hd
    · rintro ⟨hl, hall⟩
      exact ⟨⟨hl, fun h => hall c (by simp) h.symm⟩, fun d hd => hall d (by simp [hd])⟩

theorem nodup_foldl_insert (g : XmlNode → String) :
    ∀ (cs : List XmlNode) (l : List String), l.Nodup →
      (cs.foldl (fun l c => insertName l (g c)) l).Nodup := by
  intro cs
  induction cs with
  | nil => intro l h; exact h
  | cons c cs ih => intro l h; exact ih _ (nodup_insertName h)

theorem nodup_foldl_erase (g : XmlNode → String) :
    ∀ (cs : List XmlNode) (l : List String), l.Nodup →
      (cs.foldl (fun l c => eraseName l (g c)) l).Nodup := by
  intro cs
  induction cs with
  | nil => intro l h; exact h
  | cons c cs ih => intro l h; exact ih _ (nodup_eraseName h)

/-!  Which manifest fields each operation leaves untouched. -/

theorem foldl_field_inv {α β γ : Type} (g : β → γ) (f : β → α → β)
    (h : ∀ b a, g (f b a) = g b) :
    ∀ (l : List α) (b : β), g (l.foldl f b) = g b := by
  intro l
  induction l with
  | nil => intro b; rfl
  | cons a l ih => intro b; rw [List.foldl_cons, ih, h]

theorem add_features (m : Manifest) (node : XmlNode) :
    (add_to_manifest m node).features = m.features := rfl

theorem add_extensions (m : Manifest) (node : XmlNode) :
    (add_to_manifest m node).extensions = m.extensions := rfl

theorem add_commands (m : Manifest) (node : XmlNode) :
    (add_to_manifest m node).commands =
      (childrenNamed "command" node).foldl
        (fun s c => insertName s (attr "name" c)) m.commands := rfl

theorem add_types (m : Manifest) (node : XmlNode) :
    (add_to_manifest m node).types =
      (childrenNamed "type" node).foldl
        (fun s c => insertName s (attr "name" c)) m.types := rfl

theorem add_enums (m : Manifest) (node : XmlNode) :
    (add_to_manifest m node).enums =
      (childrenNamed "enum" node).foldl
        (fun s c => insertName s (attr "name" c)) m.enums := rfl

theorem remove_features (m : Manifest) (node : XmlNode) :
    (remove_from_manifest m node).features = m.features := rfl

theorem remove_extensions (m : Manifest) (node : XmlNode) :
    (remove_from_manifest m node).extensions = m.extensions := rfl

theorem remove_commands (m : Manifest) (node : XmlNode) :
    (remove_from_manifest m node).commands =
      (childrenNamed "command" node).foldl
        (fun s c => eraseName s (attr "name" c)) m.commands := rfl

theorem remove_types (m : Manifest) (node : XmlNode) :
    (remove_from_manifest m node).types =
      (childrenNamed "type" node).foldl
        (fun s c => eraseName s (attr "name" c)) m.types := rfl

theorem remove_enums (m : Manifest) (node : XmlNode) :
    (remove_from_manifest m node).enums =
      (childrenNamed "enum" node).foldl
        (fun s c => eraseName s (attr "name" c)) m.enums := rfl

theorem update_features (m : Manifest) (target : Target) (node : XmlNode) :
    (update_manifest m target node).features = m.features := by
  unfold update_manifest
  rw [foldl_field_inv Manifest.features, foldl_field_inv Manifest.features]
  · exact fun b a => add_features b a
  · intro b a
    dsimp only
    split
    · exact remove_features b a
    · rfl

theorem update_extensions (m : Manifest) (target : Target) (node : XmlNode) :
    (update_manifest m target node).extensions = m.extensions := by
  unfold update_manifest
  rw [foldl_field_inv Manifest.extensions, foldl_field_inv Manifest.extensions]
  · exact fun b a => add_extensions b a
  · intro b a
    dsimp only
    split
    · exact remove_extensions b a
    · rfl

/-!  Membership in the command set through one require/remove application. -/

theorem mem_commands_add {s : String} (m : Manifest) (node : XmlNode) :
    s ∈ (add_to_manifest m node).commands ↔
      s ∈ m.commands ∨ s ∈ cmdNames node := by
  rw [add_commands, mem_foldl_insert]
  unfold cmdNames
  simp [List.mem_map, eq_comm]

theorem mem_commands_remove {s : String} (m : Manifest) (node : XmlNode) :
    s ∈ (remove_from_manifest m node).commands ↔
      s ∈ m.commands ∧ s ∉ cmdNames node := by
  rw [remove_commands, mem_foldl_erase]
  unfold cmdNames
  constructor
  · rintro ⟨hm, hall⟩
    refine ⟨hm, ?_⟩
    intro hmem
    rw [List.mem_map] at hmem
    rcases hmem with ⟨c, hc, hgc⟩
    exact hall c hc hgc
  · rintro ⟨hm, hnot⟩
    refine ⟨hm, ?_⟩
    intro c hc hgc
    exact hnot (List.mem_map.mpr ⟨c, hc, hgc⟩)

theorem mem_commands_foldl_add {s : String} :
    ∀ (rqs : List XmlNode) (m : Manifest),
      s ∈ (rqs.foldl add_to_manifest m).commands ↔
        s ∈ m.commands ∨ ∃ rq ∈ rqs, s ∈ cmdNames rq := by
  intro rqs
  induction rqs with
  | nil => simp
  | cons rq rqs ih =>
    intro m
    rw [List.foldl_cons, ih, mem_commands_add]
    constructor
    · rintro (⟨h | h⟩ | ⟨d, hd, hm⟩)
      · exact Or.inl h
      · exact Or.inr ⟨rq, by simp, h⟩
      · exact Or.inr ⟨d, by simp [hd], hm⟩
    · rintro (h | ⟨d, hd, hm⟩)
      · exact Or.inl (Or.inl h)
      · rcases List.mem_cons.mp hd with rfl | hd
        · exact Or.inl (Or.inr hm)
        · exact Or.inr ⟨d, hd, hm⟩

theorem mem_commands_foldl_remove {s : String} (target : Target) :
    ∀ (rns : List XmlNode) (m : Manifest),
      s ∈ (rns.foldl (fun m2 rn =>
            if attr "profile" rn = target.profile
            then remove_from_manifest m2 rn else m2) m).commands ↔
        s ∈ m.commands ∧
          ∀ rn ∈ rns, attr "profile" rn = target.profile → s ∉ cmdNames rn := by
  intro rns
  induction rns with
  | nil => simp
  | cons rn rns ih =>
    intro m
    rw [List.foldl_cons, ih]
    by_cases hp : attr "profile" rn = target.profile
    · rw [if_pos hp, mem_commands_remove]
      constructor
      · rintro ⟨⟨hm, hn⟩, hall⟩
        refine ⟨hm, ?_⟩
        intro d hd hpd
        rcases List.mem_cons.mp hd with rfl | hd
        · exact hn
        · exact hall d hd hpd
      · rintro ⟨hm, hall⟩
        exact ⟨⟨hm, hall rn (by simp) hp⟩, fun d hd hpd => hall d (by simp [hd]) hpd⟩
    · rw [if_neg hp]
      constructor
      · rintro ⟨hm, hall⟩
        refine ⟨hm, ?_⟩
        intro d hd hpd
        rcases List.mem_cons.mp hd with rfl | hd
        · exact absurd hpd hp
        · exact hall d hd hpd
      · rintro ⟨hm, hall⟩
        exact ⟨hm, fun d hd hpd => hall d (by simp [hd]) hpd⟩

/-- Membership in the command set after applying one `<feature>` or
`<extension>` element: the symbol must survive every applicable remove,
and be either present before or required by the element. -/
theorem mem_commands_update {s : String} (m : Manifest) (target : Target)
    (node : XmlNode) :
    s ∈ (update_manifest m target node).commands ↔
      ((s ∈ m.commands ∨ requiresCmd node s) ∧ ¬ removesCmd target node s) := by
  unfold update_manifest
  rw [mem_commands_foldl_remove, mem_commands_foldl_add]
  unfold requiresCmd removesCmd
  constructor
  · rintro ⟨hin, hall⟩
    refine ⟨hin, ?_⟩
    rintro ⟨rn, hrn, hp, hmem⟩
    exact hall rn hrn hp hmem
  · rintro ⟨hin, hno⟩
    refine ⟨hin, ?_⟩
    intro rn hrn hp hmem
    exact hno ⟨rn, hrn, hp, hmem⟩

/-!  Step-level behaviour of the feature and extension loops. -/

theorem featureStep_not_accepted {target : Target} {fn : XmlNode}
    (h : ¬ acceptsFeature target fn) (m : Manifest) :
    featureStep target m fn = m := by
  unfold featureStep
  rw [if_neg]
  exact fun hc => h hc

theorem featureStep_accepted {target : Target} {fn : XmlNode}
    (h : acceptsFeature target fn) (m : Manifest) :
    featureStep target m fn =
      { update_manifest m target fn with
        features := m.features ++
          [{ name := attr "name" fn, version := parseVersion (attr "number" fn) }] } := by
  have h' : attr "api" fn = target.api ∧
      leVersion (parseVersion (attr "number" fn)) target.version := h
  simp only [featureStep]
  rw [if_pos h']
  simp only [update_features]

theorem featureStep_commands (target : Target) (m : Manifest) (fn : XmlNode) :
    (featureStep target m fn).commands =
      if acceptsFeature target fn
      then (update_manifest m target fn).commands
      else m.commands := by
  by_cases h : acceptsFeature target fn
  · rw [featureStep_accepted h, if_pos h]
  · rw [featureStep_not_accepted h, if_neg h]

theorem extensionStep_not_requested {target : Target} {en : XmlNode}
    (h : attr "name" en ∉ target.extensions) (acc : Manifest × List String) :
    extensionStep target acc en = acc := by
  unfold extensionStep
  rw [if_neg]
  exact h

theorem extensionStep_unsupported {target : Target} {en : XmlNode}
    (h1 : attr "name" en ∈ target.extensions)
    (h2 : (target.api ++ target.profile) ∉ splitPipe (attr "supported" en))
    (acc : Manifest × List String) :
    extensionStep target acc en = (acc.1, acc.2 ++ [diagLine (attr "name" en)]) := by
  unfold extensionStep
  rw [if_pos h1, if_neg]
  exact h2

theorem extensionStep_accepted {target : Target} {en : XmlNode}
    (h : acceptsExtension target en) (acc : Manifest × List String) :
    extensionStep target acc en =
      ({ update_manifest acc.1 target en with
         extensions := (update_manifest acc.1 target en).extensions ++ [attr "name" en] },
       acc.2) := by
  unfold extensionStep
  rw [if_pos h.1, if_pos h.2]

theorem extensionStep_manifest_not_accepted {target : Target} {en : XmlNode}
    (h : ¬ acceptsExtension target en) (acc : Manifest × List String) :
    (extensionStep target acc en).1 = acc.1 := by
  by_cases h1 : attr "name" en ∈ target.extensions
  · by_cases h2 : (target.api ++ target.profile) ∈ splitPipe (attr "supported" en)
    · exact absurd ⟨h1, h2⟩ h
    · rw [extensionStep_unsupported h1 h2]
  · rw [extensionStep_not_requested h1]

theorem extensionStep_commands (target : Target) (acc : Manifest × List String)
    (en : XmlNode) :
    (extensionStep target acc en).1.commands =
      if acceptsExtension target en
      then (update_manifest acc.1 target en).commands
      else acc.1.commands := by
  by_cases h : acceptsExtension target en
  · rw [extensionStep_accepted h, if_pos h]
  · rw [extensionStep_manifest_not_accepted h, if_neg h]

/-!  Absence and presence of a command through whole passes. -/

theorem featurePass_absent {target : Target} {s : String} :
    ∀ (fns : List XmlNode) (m : Manifest), s ∉ m.commands →
      (∀ fn ∈ fns, acceptsFeature target fn → ¬ requiresCmd fn s) →
      s ∉ (featurePass target m fns).commands := by
  intro fns
  induction fns with
  | nil => intro m h _; exact h
  | cons fn fns ih =>
    intro m h hall
    unfold featurePass
    rw [List.foldl_cons]
    refine ih (featureStep target m fn) ?_ (fun g hg => hall g (by simp [hg]))
    intro hmem
    rw [featureStep_commands] at hmem
    by_cases hacc : acceptsFeature target fn
    · rw [if_pos hacc] at hmem
      rw [mem_commands_update] at hmem
      rcases hmem with ⟨hor, _⟩
      rcases hor with hin | hreq
      · exact h hin
      · exact hall fn (by simp) hacc hreq
    · rw [if_neg hacc] at hmem
      exact h hmem

theorem featurePass_present {target : Target} {s : String} :
    ∀ (fns : List XmlNode) (m : Manifest), s ∈ m.commands →
      (∀ fn ∈ fns, acceptsFeature target fn → ¬ removesCmd target fn s) →
      s ∈ (featurePass target m fns).commands := by
  intro fns
  induction fns with
  | nil => intro m h _; exact h
  | cons fn fns ih =>
    intro m h hall
    unfold featurePass
    rw [List.foldl_cons]
    refine ih (featureStep target m fn) ?_ (fun g hg => hall g (by simp [hg]))
    rw [featureStep_commands]
    by_cases hacc : acceptsFeature target fn
    · rw [if_pos hacc, mem_commands_update]
      exact ⟨Or.inl h, hall fn (by simp) hacc⟩
    · rw [if_neg hacc]
      exact h

theorem extensionPass_absent {target : Target} {s : String} :
    ∀ (ens : List XmlNode) (acc : Manifest × List String), s ∉ acc.1.commands →
      (∀ en ∈ ens, acceptsExtension target en → ¬ requiresCmd en s) →
      s ∉ (extensionPass target acc ens).1.commands := by
  intro ens
  induction ens with
  | nil => intro acc h _; exact h
  | cons en ens ih =>
    intro acc h hall
    unfold extensionPass
    rw [List.foldl_cons]
    refine ih (extensionStep target acc en) ?_ (fun g hg => hall g (by simp [hg]))
    intro hmem
    rw [extensionStep_commands] at hmem
    by_cases hacc : acceptsExtension target en
    · rw [if_pos hacc, mem_commands_update] at hmem
      rcases hmem with ⟨hor, _⟩
      rcases hor with hin | hreq
      · exact h hin
      · exact hall en (by simp) hacc hreq
    · rw [if_neg hacc] at hmem
      exact h hmem

theorem extensionPass_present {target : Target} {s : String} :
    ∀ (ens : List XmlNode) (acc : Manifest × List String), s ∈ acc.1.commands →
      (∀ en ∈ ens, acceptsExtension target en → ¬ removesCmd target en s) →
      s ∈ (extensionPass target acc ens).1.commands := by
  intro ens
  induction ens with
  | nil => intro acc h _; exact h
  | cons en ens ih =>
    intro acc h hall
    unfold extensionPass
    rw [List.foldl_cons]
    refine ih (extensionStep target acc en) ?_ (fun g hg => hall g (by simp [hg]))
    rw [extensionStep_commands]
    by_cases hacc : acceptsExtension target en
    · rw [if_pos hacc, mem_commands_update]
      exact ⟨Or.inl h, hall en (by simp) hacc⟩
    · rw [if_neg hacc]
      exact h

/-!  The later passes never touch the command set. -/

theorem commandStep_commands (m : Manifest) (cn : XmlNode) :
    (commandStep m cn).commands = m.commands := by
  unfold commandStep
  split <;> rfl

theorem commandPass_commands (m : Manifest) (cns : List XmlNode) :
    (commandPass m cns).commands = m.commands :=
  foldl_field_inv Manifest.commands commandStep commandStep_commands cns m

theorem typeStep_commands (target : Target) (m : Manifest) (tn : XmlNode) :
    (typeStep target m tn).commands = m.commands := by
  unfold typeStep
  split <;> rfl

theorem typePass_commands (target : Target) (m : Manifest) (tns : List XmlNode) :
    (typePass target m tns).commands = m.commands :=
  foldl_field_inv Manifest.commands (typeStep target) (typeStep_commands target) tns m

/-- The command set of the full resolution is fixed once the extension loop
has run: the parameter-type and transitive-type loops only add types. -/
theorem generate_manifest_commands (target : Target) (doc : XmlNode) :
    (generate_manifest target doc).1.commands =
      (manifestAfterExtensions target doc).1.commands := by
  unfold generate_manifest manifestAfterCommands
  rw [typePass_commands, commandPass_commands]

/-!  The features field through steps and passes. -/

theorem featureStep_features (target : Target) (m : Manifest) (fn : XmlNode) :
    (featureStep target m fn).features =
      if acceptsFeature target fn
      then m.features ++
        [{ name := attr "name" fn, version := parseVersion (attr "number" fn) }]
      else m.features := by
  by_cases h : acceptsFeature target fn
  · rw [featureStep_accepted h, if_pos h]
  · rw [featureStep_not_accepted h, if_neg h]

theorem extensionStep_features (target : Target) (acc : Manifest × List String)
    (en : XmlNode) :
    (extensionStep target acc en).1.features = acc.1.features := by
  by_cases h : acceptsExtension target en
  · rw [extensionStep_accepted h]
    exact update_features acc.1 target en
  · rw [extensionStep_manifest_not_accepted h]

theorem extensionPass_features (target : Target) (ens : List XmlNode)
    (acc : Manifest × List String) :
    (extensionPass target acc ens).1.features = acc.1.features :=
  foldl_field_inv (fun p => p.1.features) (extensionStep target)
    (extensionStep_features target) ens acc

theorem commandStep_features (m : Manifest) (cn : XmlNode) :
    (commandStep m cn).features = m.features := by
  unfold commandStep
  split <;> rfl

theorem commandPass_features (m : Manifest) (cns : List XmlNode) :
    (commandPass m cns).features = m.features :=
  foldl_field_inv Manifest.features commandStep commandStep_features cns m

theorem typeStep_features (target : Target) (m : Manifest) (tn : XmlNode) :
    (typeStep target m tn).features = m.features := by
  unfold typeStep
  split <;> rfl

theorem typePass_features (target : Target) (m : Manifest) (tns : List XmlNode) :
    (typePass target m tns).features = m.features :=
  foldl_field_inv Manifest.features (typeStep target) (typeStep_features target) tns m

theorem generate_manifest_features (target : Target) (doc : XmlNode) :
    (generate_manifest target doc).1.features =
      (manifestAfterFeatures target doc).features := by
  unfold generate_manifest manifestAfterCommands
  rw [typePass_features, commandPass_features]
  unfold manifestAfterExtensions
  rw [extensionPass_features]

theorem featurePass_features_le (target : Target) :
    ∀ (fns : List XmlNode) (m : Manifest),
      (∀ f ∈ m.features, leVersion f.version target.version) →
      ∀ f ∈ (featurePass target m fns).features, leVersion f.version target.version := by
  intro fns
  induction fns with
  | nil => intro m h; exact h
  | cons fn fns ih =>
    intro m h
    unfold featurePass
    rw [List.foldl_cons]
    refine ih _ ?_
    rw [featureStep_features]
    by_cases hacc : acceptsFeature target fn
    · rw [if_pos hacc]
      intro f hf
      rcases List.mem_append.mp hf with hf | hf
      · exact h f hf
      · rw [List.mem_singleton] at hf
        subst hf
        exact hacc.2
    · rw [if_neg hacc]
      exact h

/-!  Claim C1: profile-scoped removal. -/

/-- A feature used for claim C1: requires `glFoo`, then removes it with a
`<remove>` element carrying no `profile` attribute. -/
def featC1 : XmlNode :=
  XmlNode.elem "feature" [("api", "gl"), ("number", "1.0"), ("name", "GL_VERSION_1_0")]
    [XmlNode.elem "require" [] [XmlNode.elem "command" [("name", "glFoo")] []],
     XmlNode.elem "remove" [] [XmlNode.elem "command" [("name", "glFoo")] []]]

/-- A registry containing only `featC1`. -/
def docC1 : XmlNode :=
  XmlNode.elem "" [] [XmlNode.elem "registry" [] [featC1]]

/-- A target with the core profile configured. -/
def tgtC1 : Target :=
  { api := "gl", profile := "core", version := ⟨1, 0⟩, extensions := [] }

/-- C1, counterexample: with profile `core` configured, the accepted feature
`featC1` carries a `<remove>` child with no `profile` attribute listing
`glFoo`; the claim says that removal applies unconditionally, yet `glFoo`
survives resolution because the code compares the missing attribute (read
as `""`) against `"core"` for exact equality. -/
theorem claim1_counterexample :
    acceptsFeature tgtC1 featC1 ∧
    tgtC1.profile ≠ "" ∧
    (∃ rn ∈ childrenNamed "remove" featC1,
      attrFind "profile" rn = none ∧ "glFoo" ∈ cmdNames rn) ∧
    "glFoo" ∈ (generate_manifest tgtC1 docC1).1.commands := by
  refine ⟨by decide, by decide, by decide, by decide⟩

/-- C1 (amended): during resolution of an accepted feature or extension, a
`<remove>` child is applied exactly when its `profile` attribute value (the
empty string when the attribute is absent) equals the configured profile
string; in particular a `<remove>` child without a `profile` attribute is
applied only when no profile is configured, never unconditionally.  A name
removed by an applicable `<remove>` is gone from the command set; a name
required (or already present) with no applicable `<remove>` listing it is
in the command set. -/
theorem claim1_remove_scope (m : Manifest) (target : Target) (node : XmlNode)
    (s : String) :
    (removesCmd target node s → s ∉ (update_manifest m target node).commands)
    ∧ ((s ∈ m.commands ∨ requiresCmd node s) → ¬ removesCmd target node s →
        s ∈ (update_manifest m target node).commands)
    ∧ (∀ rn : XmlNode, attrFind "profile" rn = none → attr "profile" rn = "") := by
  refine ⟨?_, ?_, ?_⟩
  · intro hrem hmem
    rw [mem_commands_update] at hmem
    exact hmem.2 hrem
  · intro hin hno
    rw [mem_commands_update]
    exact ⟨hin, hno⟩
  · intro rn h
    unfold attr
    rw [h]
    rfl

/-- C1, witness: the removal direction of `claim1_remove_scope` fires on a
concrete remove with `profile="core"` matching the configured profile. -/
theorem claim1_witness :
    removesCmd tgtC1
      (XmlNode.elem "feature" []
        [XmlNode.elem "remove" [("profile", "core")]
          [XmlNode.elem "command" [("name", "glBar")] []]]) "glBar" ∧
    "glBar" ∉ (update_manifest { emptyManifest with commands := ["glBar"] } tgtC1
      (XmlNode.elem "feature" []
        [XmlNode.elem "remove" [("profile", "core")]
          [XmlNode.elem "command" [("name", "glBar")] []]])).commands :=
  ⟨by decide,
   (claim1_remove_scope { emptyManifest with commands := ["glBar"] } tgtC1
      (XmlNode.elem "feature" []
        [XmlNode.elem "remove" [("profile", "core")]
          [XmlNode.elem "command" [("name", "glBar")] []]]) "glBar").1 (by decide)⟩

/-!  Claim C2: feature acceptance and the version ceiling. -/

/-- C2, counterexample: the claim asserts that `"2.1" <= "2.10"` is false
under the structured comparison, but the code parses `2.1` as (2,1) and
`2.10` as (2,10), and (2,1) ≤ (2,10) holds lexicographically. -/
theorem claim2_counterexample :
    parseVersion "2.1" = ⟨2, 1⟩ ∧
    parseVersion "2.10" = ⟨2, 10⟩ ∧
    leVersion (parseVersion "2.1") (parseVersion "2.10") := by
  refine ⟨by decide, by decide, by decide⟩

/-- C2 (amended): a `<feature>` element is accepted iff its `api` attribute
equals `target.api` and its parsed version is ≤ `target.version`, where
versions compare as structured (major, minor) pairs lexicographically — so
`"2.1" ≤ "2.10"` holds while `"2.10" ≤ "2.1"` fails, avoiding the float
truncation bug — and ties are inclusive; a rejected feature contributes
nothing, an accepted one records its (name, version) pair, and every
feature record of the resolved manifest obeys the ceiling. -/
theorem claim2_feature_acceptance (target : Target) (m : Manifest)
    (fn : XmlNode) (doc : XmlNode) :
    (¬ acceptsFeature target fn → featureStep target m fn = m)
    ∧ (acceptsFeature target fn →
        (featureStep target m fn).features = m.features ++
          [{ name := attr "name" fn, version := parseVersion (attr "number" fn) }])
    ∧ (∀ v : Version, leVersion v v)
    ∧ (leVersion (parseVersion "2.1") (parseVersion "2.10") ∧
        ¬ leVersion (parseVersion "2.10") (parseVersion "2.1"))
    ∧ (∀ f ∈ (generate_manifest target doc).1.features,
        leVersion f.version target.version) := by
  refine ⟨?_, ?_, ?_, ⟨by decide, by decide⟩, ?_⟩
  · intro h
    exact featureStep_not_accepted h m
  · intro h
    rw [featureStep_accepted h]
  · intro v
    exact Or.inr ⟨rfl, Nat.le_refl _⟩
  · rw [generate_manifest_features]
    unfold manifestAfterFeatures
    refine featurePass_features_le target (selectFeatures doc) emptyManifest ?_
    intro f hf
    cases hf

/-- C2, witness: `claim2_feature_acceptance` applied to a concrete feature
rejected for exceeding the ceiling (version 2.0 against ceiling 1.0), and
a concrete manifest with a recorded feature inside the ceiling. -/
theorem claim2_witness :
    ¬ acceptsFeature tgtC1
      (XmlNode.elem "feature" [("api", "gl"), ("number", "2.0")] []) ∧
    featureStep tgtC1 emptyManifest
      (XmlNode.elem "feature" [("api", "gl"), ("number", "2.0")] []) = emptyManifest ∧
    ∀ f ∈ (generate_manifest tgtC1 docC1).1.features, leVersion f.version tgtC1.version :=
  ⟨by decide,
   (claim2_feature_acceptance tgtC1 emptyManifest
      (XmlNode.elem "feature" [("api", "gl"), ("number", "2.0")] []) docC1).1 (by decide),
   (claim2_feature_acceptance tgtC1 emptyManifest
      (XmlNode.elem "feature" [("api", "gl"), ("number", "2.0")] []) docC1).2.2.2.2⟩

/-!  Claim C3: last-write-wins ordering of require/remove application. -/

theorem featurePass_append (target : Target) (m : Manifest)
    (l1 l2 : List XmlNode) :
    featurePass target m (l1 ++ l2) = featurePass target (featurePass target m l1) l2 := by
  unfold featurePass
  rw [List.foldl_append]

theorem extensionPass_append (target : Target) (acc : Manifest × List String)
    (l1 l2 : List XmlNode) :
    extensionPass target acc (l1 ++ l2) =
      extensionPass target (extensionPass target acc l1) l2 := by
  unfold extensionPass
  rw [List.foldl_append]

/-- C3 (amended): require/remove application is last-write-wins in
processing order.  If an accepted feature's applicable `<remove>` drops a
symbol, the symbol is absent from the final manifest whenever no
later-processed accepted element re-requires it; and it is present whenever
some later-processed accepted feature or extension re-requires it and no
element processed after that re-require (including that element's own
removes) applicably removes it again. -/
theorem claim3_last_write_wins (target : Target) (spec : XmlNode) (s : String)
    (f1 f2 : List XmlNode) (fi : XmlNode)
    (hsplit : selectFeatures spec = f1 ++ fi :: f2)
    (hacc : acceptsFeature target fi)
    (hrem : removesCmd target fi s) :
    ((∀ g ∈ f2, acceptsFeature target g → ¬ requiresCmd g s) →
     (∀ e ∈ selectExtensions spec, acceptsExtension target e → ¬ requiresCmd e s) →
     s ∉ (generate_manifest target spec).1.commands)
    ∧ (∀ e1 e2 : List XmlNode, ∀ e : XmlNode,
        selectExtensions spec = e1 ++ e :: e2 →
        acceptsExtension target e → requiresCmd e s → ¬ removesCmd target e s →
        (∀ h ∈ e2, acceptsExtension target h → ¬ removesCmd target h s) →
        s ∈ (generate_manifest target spec).1.commands)
    ∧ (∀ g1 g2 : List XmlNode, ∀ g : XmlNode,
        f2 = g1 ++ g :: g2 →
        acceptsFeature target g → requiresCmd g s → ¬ removesCmd target g s →
        (∀ h ∈ g2, acceptsFeature target h → ¬ removesCmd target h s) →
        (∀ e ∈ selectExtensions spec, acceptsExtension target e → ¬ removesCmd target e s) →
        s ∈ (generate_manifest target spec).1.commands) := by
  have hAfterFi : ∀ m : Manifest, s ∉ (featureStep target m fi).commands := by
    intro m hmem
    rw [featureStep_commands, if_pos hacc, mem_commands_update] at hmem
    exact hmem.2 hrem
  refine ⟨?_, ?_, ?_⟩
  · intro hallF hallE
    rw [generate_manifest_commands]
    unfold manifestAfterExtensions
    apply extensionPass_absent (selectExtensions spec) _ _ hallE
    unfold manifestAfterFeatures
    rw [hsplit, featurePass_append]
    have : featurePass target (featurePass target emptyManifest f1) (fi :: f2) =
        featurePass target (featureStep target (featurePass target emptyManifest f1) fi) f2 := by
      unfold featurePass
      rw [List.foldl_cons]
    rw [this]
    exact featurePass_absent f2 _ (hAfterFi _) hallF
  · intro e1 e2 e hesplit hacce hreqe hnoreme halle2
    rw [generate_manifest_commands]
    unfold manifestAfterExtensions
    rw [hesplit, extensionPass_append]
    have : extensionPass target (extensionPass target (manifestAfterFeatures target spec, []) e1) (e :: e2) =
        extensionPass target
          (extensionStep target (extensionPass target (manifestAfterFeatures target spec, []) e1) e) e2 := by
      unfold extensionPass
      rw [List.foldl_cons]
    rw [this]
    apply extensionPass_present e2 _ _ halle2
    rw [extensionStep_commands, if_pos hacce, mem_commands_update]
    exact ⟨Or.inr hreqe, hnoreme⟩
  · intro g1 g2 g hgsplit haccg hreqg hnoremg hallg2 hallE
    rw [generate_manifest_commands]
    unfold manifestAfterExtensions
    apply extensionPass_present (selectExtensions spec) _ _ hallE
    unfold manifestAfterFeatures
    rw [hsplit, hgsplit]
    have expand : f1 ++ fi :: (g1 ++ g :: g2) = (f1 ++ fi :: g1 ++ [g]) ++ g2 := by
      simp
    rw [expand, featurePass_append, featurePass_append]
    apply featurePass_present g2 _ _ hallg2
    have : featurePass target (featurePass target emptyManifest (f1 ++ fi :: g1)) [g] =
        featureStep target (featurePass target emptyManifest (f1 ++ fi :: g1)) g := by
      unfold featurePass
      rw [List.foldl_cons, List.foldl_nil]
    rw [this, featureStep_commands, if_pos haccg, mem_commands_update]
    exact ⟨Or.inr hreqg, hnoremg⟩

/-- Feature requiring `glFoo`, for the C3 scenario. -/
def featC3a : XmlNode :=
  XmlNode.elem "feature" [("api", "gl"), ("number", "1.0"), ("name", "GL_VERSION_1_0")]
    [XmlNode.elem "require" [] [XmlNode.elem "command" [("name", "glFoo")] []]]

/-- Feature removing `glFoo` (no profile attribute, applicable when no
profile is configured), for the C3 scenario. -/
def featC3b : XmlNode :=
  XmlNode.elem "feature" [("api", "gl"), ("number", "2.0"), ("name", "GL_VERSION_2_0")]
    [XmlNode.elem "remove" [] [XmlNode.elem "command" [("name", "glFoo")] []]]

/-- Extension re-requiring `glFoo`, for the C3 scenario. -/
def extC3a : XmlNode :=
  XmlNode.elem "extension" [("name", "GL_ARB_one"), ("supported", "gl")]
    [XmlNode.elem "require" [] [XmlNode.elem "command" [("name", "glFoo")] []]]

/-- Extension removing `glFoo` again, processed after `extC3a`. -/
def extC3b : XmlNode :=
  XmlNode.elem "extension" [("name", "GL_ARB_two"), ("supported", "gl")]
    [XmlNode.elem "remove" [] [XmlNode.elem "command" [("name", "glFoo")] []]]

/-- The C3 registry: both features, then both extensions. -/
def docC3 : XmlNode :=
  XmlNode.elem "" [] [XmlNode.elem "registry" []
    [featC3a, featC3b, XmlNode.elem "extensions" [] [extC3a, extC3b]]]

/-- The C3 target: no profile, ceiling 2.0, both extensions requested. -/
def tgtC3 : Target :=
  { api := "gl", profile := "", version := ⟨2, 0⟩,
    extensions := ["GL_ARB_one", "GL_ARB_two"] }

/-- C3, counterexample: `glFoo` is removed by the accepted feature
`featC3b` and re-required by the later-processed accepted extension
`extC3a`, so the claim as stated promises it is in the final manifest; but
the still-later accepted extension `extC3b` removes it again, and it is
absent. -/
theorem claim3_counterexample :
    acceptsFeature tgtC3 featC3b ∧
    removesCmd tgtC3 featC3b "glFoo" ∧
    acceptsExtension tgtC3 extC3a ∧
    requiresCmd extC3a "glFoo" ∧
    "glFoo" ∉ (generate_manifest tgtC3 docC3).1.commands := by
  refine ⟨by decide, by decide, by decide, by decide, by decide⟩

/-- C3, witness: on the C3 registry without the second, removing extension,
`claim3_last_write_wins` puts `glFoo` back in the final manifest via the
re-requiring extension. -/
theorem claim3_witness :
    "glFoo" ∈ (generate_manifest
      { api := "gl", profile := "", version := ⟨2, 0⟩, extensions := ["GL_ARB_one"] }
      (XmlNode.elem "" [] [XmlNode.elem "registry" []
        [featC3a, featC3b, XmlNode.elem "extensions" [] [extC3a]]])).1.commands :=
  (claim3_last_write_wins
    { api := "gl", profile := "", version := ⟨2, 0⟩, extensions := ["GL_ARB_one"] }
    (XmlNode.elem "" [] [XmlNode.elem "registry" []
      [featC3a, featC3b, XmlNode.elem "extensions" [] [extC3a]]])
    "glFoo" [featC3a] [] featC3b (by rfl) (by decide) (by decide)).2.1
    [] [] extC3a (by rfl) (by decide) (by decide) (by decide)
    (by intro h hmem; cases hmem)

/-!  Claim C4: filtering of unsupported requested extensions. -/

/-- C4: a requested extension whose `supported` tokens (split on `"|"`) do
not contain the support token `target.api ++ target.profile` produces the
diagnostic line naming it, leaves the manifest — including its extension
list — untouched, and the loop continues with the remaining extensions. -/
theorem claim4_unsupported_extension (target : Target) (m : Manifest)
    (d : List String) (en : XmlNode) (rest : List XmlNode)
    (h1 : attr "name" en ∈ target.extensions)
    (h2 : (target.api ++ target.profile) ∉ splitPipe (attr "supported" en)) :
    extensionStep target (m, d) en = (m, d ++ [diagLine (attr "name" en)])
    ∧ extensionPass target (m, d) (en :: rest) =
        extensionPass target (m, d ++ [diagLine (attr "name" en)]) rest := by
  have hstep := extensionStep_unsupported h1 h2 (m, d)
  refine ⟨hstep, ?_⟩
  unfold extensionPass
  rw [List.foldl_cons, hstep]

/-- The C4 extension: requested, but supported only on `gles2`. -/
def extC4 : XmlNode :=
  XmlNode.elem "extension" [("name", "GL_EXT_x"), ("supported", "gles2")]
    [XmlNode.elem "require" [] [XmlNode.elem "command" [("name", "glQux")] []]]

/-- The C4 target: plain `gl`, requesting `GL_EXT_x`. -/
def tgtC4 : Target :=
  { api := "gl", profile := "", version := ⟨1, 0⟩, extensions := ["GL_EXT_x"] }

/-- C4, witness: `claim4_unsupported_extension` on the concrete `gles2`-only
extension against the `gl` target — the manifest survives unchanged and the
diagnostic line is emitted. -/
theorem claim4_witness :
    attr "name" extC4 ∈ tgtC4.extensions ∧
    (tgtC4.api ++ tgtC4.profile) ∉ splitPipe (attr "supported" extC4) ∧
    extensionStep tgtC4 (emptyManifest, []) extC4 =
      (emptyManifest, [diagLine "GL_EXT_x"]) :=
  ⟨by decide, by decide,
   (claim4_unsupported_extension tgtC4 emptyManifest [] extC4 []
     (by decide) (by decide)).1⟩

/-!  Claim C5: implicit parameter types and transitive type requirements. -/

theorem foldl_mem_mono {α : Type} {f : List String → α → List String}
    (hf : ∀ (l : List String) (a : α), ∀ x ∈ l, x ∈ f l a) :
    ∀ (as : List α) (l : List String), ∀ x ∈ l, x ∈ as.foldl f l := by
  intro as
  induction as with
  | nil => intro l x hx; exact hx
  | cons a as ih => intro l x hx; exact ih (f l a) x (hf l a x hx)

theorem paramTypeInsert_mono (l : List String) (pn : XmlNode) :
    ∀ x ∈ l, x ∈ paramTypeInsert l pn := by
  intro x hx
  unfold paramTypeInsert
  cases firstChildNamed "ptype" pn with
  | none => exact hx
  | some tn => exact mem_insertName.mpr (Or.inl hx)

theorem commandStep_types_mono (m : Manifest) (cn : XmlNode) :
    ∀ x ∈ m.types, x ∈ (commandStep m cn).types := by
  intro x hx
  unfold commandStep
  split
  · exact foldl_mem_mono paramTypeInsert_mono _ m.types x hx
  · exact hx

theorem commandPass_types_mono :
    ∀ (cns : List XmlNode) (m : Manifest), ∀ x ∈ m.types,
      x ∈ (commandPass m cns).types := by
  intro cns
  induction cns with
  | nil => intro m x hx; exact hx
  | cons cn cns ih =>
    intro m x hx
    unfold commandPass
    rw [List.foldl_cons]
    exact ih (commandStep m cn) x (commandStep_types_mono m cn x hx)

theorem typeStep_types_mono (target : Target) (m : Manifest) (tn : XmlNode) :
    ∀ x ∈ m.types, x ∈ (typeStep target m tn).types := by
  intro x hx
  unfold typeStep
  split
  · exact mem_insertName.mpr (Or.inl hx)
  · exact hx

theorem typePass_types_mono (target : Target) :
    ∀ (tns : List XmlNode) (m : Manifest), ∀ x ∈ m.types,
      x ∈ (typePass target m tns).types := by
  intro tns
  induction tns with
  | nil => intro m x hx; exact hx
  | cons tn tns ih =>
    intro m x hx
    unfold typePass
    rw [List.foldl_cons]
    exact ih (typeStep target m tn) x (typeStep_types_mono target m tn x hx)

theorem foldl_paramTypeInsert_fires {pn tn : XmlNode}
    (htn : firstChildNamed "ptype" pn = some tn) :
    ∀ (ps : List XmlNode) (l : List String), pn ∈ ps →
      childValue tn ∈ ps.foldl paramTypeInsert l := by
  intro ps
  induction ps with
  | nil => intro l h; cases h
  | cons p ps ih =>
    intro l h
    rw [List.foldl_cons]
    rcases List.mem_cons.mp h with rfl | h
    · apply foldl_mem_mono paramTypeInsert_mono
      unfold paramTypeInsert
      rw [htn]
      exact mem_insertName.mpr (Or.inr rfl)
    · exact ih _ h

theorem commandPass_append (m : Manifest) (l1 l2 : List XmlNode) :
    commandPass m (l1 ++ l2) = commandPass (commandPass m l1) l2 := by
  unfold commandPass
  rw [List.foldl_append]

theorem typePass_append (target : Target) (m : Manifest) (l1 l2 : List XmlNode) :
    typePass target m (l1 ++ l2) = typePass target (typePass target m l1) l2 := by
  unfold typePass
  rw [List.foldl_append]

/-- C5 (as stated): after the feature and extension passes, the command
loop adds, for every command of the registry whose prototype name is in the
manifest's command set, the pcdata of each `<param>` child's `<ptype>`
child to the type set; then the `type[@requires]` loop adds the `requires`
value of every type element whose own name is in the type set so far and
whose api name (default `"gl"`) equals the target api. -/
theorem claim5_implicit_types (target : Target) (doc : XmlNode) :
    (∀ cn ∈ selectCommands doc,
      protoName cn ∈ (generate_manifest target doc).1.commands →
      ∀ pn ∈ childrenNamed "param" cn, ∀ tn : XmlNode,
        firstChildNamed "ptype" pn = some tn →
        childValue tn ∈ (generate_manifest target doc).1.types)
    ∧ (∀ tn ∈ selectTypesWithRequires doc,
        type_name tn ∈ (manifestAfterCommands target doc).types →
        api_name tn = target.api →
        attr "requires" tn ∈ (generate_manifest target doc).1.types) := by
  constructor
  · intro cn hcn hproto pn hpn tn htn
    show childValue tn ∈ (typePass target (manifestAfterCommands target doc)
      (selectTypesWithRequires doc)).types
    apply typePass_types_mono
    rcases List.append_of_mem hcn with ⟨a, b, hab⟩
    unfold manifestAfterCommands
    rw [hab, commandPass_append]
    have hcons : commandPass (commandPass (manifestAfterExtensions target doc).1 a) (cn :: b) =
        commandPass (commandStep (commandPass (manifestAfterExtensions target doc).1 a) cn) b := by
      unfold commandPass
      rw [List.foldl_cons]
    rw [hcons]
    apply commandPass_types_mono
    have hcond : protoName cn ∈
        (commandPass (manifestAfterExtensions target doc).1 a).commands := by
      rw [commandPass_commands]
      rw [generate_manifest_commands] at hproto
      exact hproto
    unfold commandStep
    rw [if_pos hcond]
    exact foldl_paramTypeInsert_fires htn (childrenNamed "param" cn) _ hpn
  · intro tn htn hmem hapi
    show attr "requires" tn ∈ (typePass target (manifestAfterCommands target doc)
      (selectTypesWithRequires doc)).types
    rcases List.append_of_mem htn with ⟨a, b, hab⟩
    rw [hab, typePass_append]
    have hcons : typePass target (typePass target (manifestAfterCommands target doc) a) (tn :: b) =
        typePass target (typeStep target (typePass target (manifestAfterCommands target doc) a) tn) b := by
      unfold typePass
      rw [List.foldl_cons]
    rw [hcons]
    apply typePass_types_mono
    have hmem' : type_name tn ∈
        (typePass target (manifestAfterCommands target doc) a).types :=
      typePass_types_mono target a _ _ hmem
    unfold typeStep
    rw [if_pos ⟨hmem', hapi⟩]
    exact mem_insertName.mpr (Or.inr rfl)

/-- The C5 registry: a feature requiring `glFoo`, the command `glFoo` with
a `GLint` parameter type, and a `GLint` type depending on `khrplatform`. -/
def docC5 : XmlNode :=
  XmlNode.elem "" [] [XmlNode.elem "registry" []
    [XmlNode.elem "feature" [("api", "gl"), ("number", "1.0"), ("name", "GL_VERSION_1_0")]
      [XmlNode.elem "require" [] [XmlNode.elem "command" [("name", "glFoo")] []]],
     XmlNode.elem "commands" []
      [XmlNode.elem "command" []
        [XmlNode.elem "proto" [] [XmlNode.text "void ", XmlNode.elem "name" [] [XmlNode.text "glFoo"]],
         XmlNode.elem "param" []
          [XmlNode.elem "ptype" [] [XmlNode.text "GLint"], XmlNode.text " ",
           XmlNode.elem "name" [] [XmlNode.text "x"]]]],
     XmlNode.elem "types" []
      [XmlNode.elem "type" [("name", "GLint"), ("requires", "khrplatform")] []]]]

/-- The C5 target. -/
def tgtC5 : Target :=
  { api := "gl", profile := "", version := ⟨1, 0⟩, extensions := [] }

/-- C5, witness: `claim5_implicit_types` on the concrete registry pulls
`GLint` into the type set through `glFoo`'s parameter, and `khrplatform`
through `GLint`'s `requires` attribute. -/
theorem claim5_witness :
    "GLint" ∈ (generate_manifest tgtC5 docC5).1.types ∧
    "khrplatform" ∈ (generate_manifest tgtC5 docC5).1.types := by
  constructor
  · exact (claim5_implicit_types tgtC5 docC5).1
      (XmlNode.elem "command" []
        [XmlNode.elem "proto" [] [XmlNode.text "void ", XmlNode.elem "name" [] [XmlNode.text "glFoo"]],
         XmlNode.elem "param" []
          [XmlNode.elem "ptype" [] [XmlNode.text "GLint"], XmlNode.text " ",
           XmlNode.elem "name" [] [XmlNode.text "x"]]])
      (List.Mem.head _) (by decide)
      (XmlNode.elem "param" []
        [XmlNode.elem "ptype" [] [XmlNode.text "GLint"], XmlNode.text " ",
         XmlNode.elem "name" [] [XmlNode.text "x"]])
      (List.Mem.head _)
      (XmlNode.elem "ptype" [] [XmlNode.text "GLint"])
      (by rfl)
  · exact (claim5_implicit_types tgtC5 docC5).2
      (XmlNode.elem "type" [("name", "GLint"), ("requires", "khrplatform")] [])
      (List.Mem.head _) (by decide) (by decide)

/-!  Claim C6: duplicate-freedom of the manifest. -/

/-- The three name sets of a manifest are duplicate-free. -/
def SetsNodup (m : Manifest) : Prop :=
  m.types.Nodup ∧ m.enums.Nodup ∧ m.commands.Nodup

theorem foldl_pred_inv {α β : Type} (P : β → Prop) (f : β → α → β)
    (h : ∀ b a, P b → P (f b a)) :
    ∀ (l : List α) (b : β), P b → P (l.foldl f b) := by
  intro l
  induction l with
  | nil => intro b hb; exact hb
  | cons a l ih => intro b hb; exact ih (f b a) (h b a hb)

theorem add_sets_nodup (m : Manifest) (node : XmlNode) (h : SetsNodup m) :
    SetsNodup (add_to_manifest m node) := by
  rcases h with ⟨ht, he, hc⟩
  refine ⟨?_, ?_, ?_⟩
  · rw [add_types]; exact nodup_foldl_insert _ _ _ ht
  · rw [add_enums]; exact nodup_foldl_insert _ _ _ he
  · rw [add_commands]; exact nodup_foldl_insert _ _ _ hc

theorem remove_sets_nodup (m : Manifest) (node : XmlNode) (h : SetsNodup m) :
    SetsNodup (remove_from_manifest m node) := by
  rcases h with ⟨ht, he, hc⟩
  refine ⟨?_, ?_, ?_⟩
  · rw [remove_types]; exact nodup_foldl_erase _ _ _ ht
  · rw [remove_enums]; exact nodup_foldl_erase _ _ _ he
  · rw [remove_commands]; exact nodup_foldl_erase _ _ _ hc

theorem update_sets_nodup (m : Manifest) (target : Target) (node : XmlNode)
    (h : SetsNodup m) : SetsNodup (update_manifest m target node) := by
  unfold update_manifest
  apply foldl_pred_inv SetsNodup
  · intro b a hb
    dsimp only
    split
    · exact remove_sets_nodup b a hb
    · exact hb
  · exact foldl_pred_inv SetsNodup add_to_manifest
      (fun b a hb => add_sets_nodup b a hb) _ m h

theorem featureStep_sets_nodup (target : Target) (m : Manifest) (fn : XmlNode)
    (h : SetsNodup m) : SetsNodup (featureStep target m fn) := by
  by_cases hacc : acceptsFeature target fn
  · rw [featureStep_accepted hacc]
    exact update_sets_nodup m target fn h
  · rw [featureStep_not_accepted hacc]
    exact h

theorem extensionStep_sets_nodup (target : Target) (acc : Manifest × List String)
    (en : XmlNode) (h : SetsNodup acc.1) : SetsNodup (extensionStep target acc en).1 := by
  by_cases hacc : acceptsExtension target en
  · rw [extensionStep_accepted hacc]
    exact update_sets_nodup acc.1 target en h
  · rw [extensionStep_manifest_not_accepted hacc]
    exact h

theorem paramTypeInsert_nodup (l : List String) (pn : XmlNode) (h : l.Nodup) :
    (paramTypeInsert l pn).Nodup := by
  unfold paramTypeInsert
  cases firstChildNamed "ptype" pn with
  | none => exact h
  | some tn => exact nodup_insertName h

theorem commandStep_sets_nodup (m : Manifest) (cn : XmlNode) (h : SetsNodup m) :
    SetsNodup (commandStep m cn) := by
  rcases h with ⟨ht, he, hc⟩
  unfold commandStep
  split
  · exact ⟨foldl_pred_inv List.Nodup paramTypeInsert
      (fun b a hb => paramTypeInsert_nodup b a hb) _ m.types ht, he, hc⟩
  · exact ⟨ht, he, hc⟩

theorem typeStep_sets_nodup (target : Target) (m : Manifest) (tn : XmlNode)
    (h : SetsNodup m) : SetsNodup (typeStep target m tn) := by
  rcases h with ⟨ht, he, hc⟩
  unfold typeStep
  split
  · exact ⟨nodup_insertName ht, he, hc⟩
  · exact ⟨ht, he, hc⟩

/-- C6 (amended): for every resolved manifest, each of the `types`, `enums`
and `commands` sets contains each name at most once.  (The ordered feature
and extension sequences are plain vectors, one entry appended per accepted
element; they repeat an entry when the registry declares two accepted
elements with the same name, as the counterexample shows.) -/
theorem claim6_sets_nodup (target : Target) (doc : XmlNode) :
    (generate_manifest target doc).1.types.Nodup ∧
    (generate_manifest target doc).1.enums.Nodup ∧
    (generate_manifest target doc).1.commands.Nodup := by
  have h0 : SetsNodup emptyManifest :=
    ⟨List.nodup_nil, List.nodup_nil, List.nodup_nil⟩
  have h1 : SetsNodup (manifestAfterFeatures target doc) :=
    foldl_pred_inv SetsNodup (featureStep target)
      (fun b a hb => featureStep_sets_nodup target b a hb) _ _ h0
  have h2 : SetsNodup (manifestAfterExtensions target doc).1 :=
    foldl_pred_inv (fun acc => SetsNodup acc.1) (extensionStep target)
      (fun b a hb => extensionStep_sets_nodup target b a hb) _ _ h1
  have h3 : SetsNodup (manifestAfterCommands target doc) :=
    foldl_pred_inv SetsNodup commandStep
      (fun b a hb => commandStep_sets_nodup b a hb) _ _ h2
  have h4 : SetsNodup (generate_manifest target doc).1 :=
    foldl_pred_inv SetsNodup (typeStep target)
      (fun b a hb => typeStep_sets_nodup target b a hb) _ _ h3
  exact h4

/-- An extension declared twice in the C6 registry. -/
def extC6 : XmlNode :=
  XmlNode.elem "extension" [("name", "GL_DUP"), ("supported", "gl")] []

/-- The C6 registry: the same extension element twice. -/
def docC6 : XmlNode :=
  XmlNode.elem "" [] [XmlNode.elem "registry" []
    [XmlNode.elem "extensions" [] [extC6, extC6]]]

/-- The C6 target, requesting the duplicated extension. -/
def tgtC6 : Target :=
  { api := "gl", profile := "", version := ⟨1, 0⟩, extensions := ["GL_DUP"] }

/-- C6, counterexample: the accepted-extension sequence is a plain vector;
a registry declaring two extensions with the same requested, supported name
yields a duplicated entry, refuting the claim's duplicate-free sequences. -/
theorem claim6_counterexample :
    (generate_manifest tgtC6 docC6).1.extensions = ["GL_DUP", "GL_DUP"] ∧
    ¬ (generate_manifest tgtC6 docC6).1.extensions.Nodup := by
  refine ⟨by decide, by decide⟩

/-!  Claim C7: rendering of command parameter lists. -/

/-- Extensionality for the string model: equal character data, equal
strings. -/
theorem strExt {a b : String} (h : a.data = b.data) : a = b :=
  congrArg String.mk h

/-- A string with a nonempty prefix is nonempty. -/
theorem strNeEmptyAppend {a : String} (b : String) (h : a ≠ "") : a ++ b ≠ "" := by
  intro hc
  apply h
  have hd := congrArg String.data hc
  rw [String.data_append] at hd
  rcases List.append_eq_nil.mp hd with ⟨h1, _⟩
  exact strExt h1

/-- Joining with `", "`, as the spec describes the parameter rendering. -/
def joinComma : List String → String
  | [] => ""
  | [t] => t
  | t :: u :: us => t ++ ", " ++ joinComma (u :: us)

/-- The tail of a comma join: `", "` before every element. -/
def joinAux : List String → String
  | [] => ""
  | t :: ts => ", " ++ t ++ joinAux ts

/-- The parameter list as claim C7 words it: the literal `"void"` for zero
`<param>` children, otherwise the scraped texts joined with `", "`.  This
is the spec-side rendering, to be compared against `command_params`. -/
def params_spec (node : XmlNode) : String :=
  match childrenNamed "param" node with
  | [] => "void"
  | ps => joinComma (ps.map scrape_proto_text)

theorem joinComma_cons (t : String) (ts : List String) :
    joinComma (t :: ts) = t ++ joinAux ts := by
  induction ts generalizing t with
  | nil => simp only [joinComma, joinAux, String.append_empty]
  | cons u us ih =>
    simp only [joinComma]
    rw [ih u]
    simp only [joinAux, String.append_assoc]

theorem foldParams_ne (ts : List String) :
    ∀ r : String, r ≠ "" →
      ts.foldl (fun r t => (if r = "" then r else r ++ ", ") ++ t) r =
        r ++ joinAux ts := by
  induction ts with
  | nil =>
    intro r _
    rw [List.foldl_nil]
    exact (String.append_empty r).symm
  | cons t ts ih =>
    intro r h
    rw [List.foldl_cons, if_neg h, ih ((r ++ ", ") ++ t)
      (strNeEmptyAppend t (strNeEmptyAppend ", " h))]
    simp only [joinAux, String.append_assoc]

/-- C7 (amended): when every `<param>` child scrapes to nonempty text —
true of well-formed registry parameter declarations — the rendered list is
the literal `"void"` for zero parameters and otherwise the scraped texts
joined with `", "`.  (When some parameter scrapes to empty text the code
instead skips the separator before it, and renders `"void"` whenever the
accumulated text, not the child count, is empty.) -/
theorem claim7_params_rendering (node : XmlNode)
    (h : ∀ pn ∈ childrenNamed "param" node, scrape_proto_text pn ≠ "") :
    command_params node = params_spec node := by
  cases hps : childrenNamed "param" node with
  | nil => simp [command_params, params_spec, hps]
  | cons p ps =>
    have hp : scrape_proto_text p ≠ "" := h p (by rw [hps]; exact List.Mem.head _)
    have hfold : (p :: ps).foldl
        (fun r pn => (if r = "" then r else r ++ ", ") ++ scrape_proto_text pn) "" =
        joinComma ((p :: ps).map scrape_proto_text) := by
      rw [List.foldl_cons, if_pos rfl, String.empty_append, List.map_cons,
        joinComma_cons]
      have := foldParams_ne (ps.map scrape_proto_text) (scrape_proto_text p) hp
      rw [List.foldl_map] at this
      exact this
    have hres : joinComma ((p :: ps).map scrape_proto_text) ≠ "" := by
      rw [List.map_cons, joinComma_cons]
      exact strNeEmptyAppend _ hp
    simp only [command_params, params_spec, hps, hfold]
    rw [if_neg hres]

/-- The C7 command: its first parameter scrapes to the empty string, so the
code emits no separator before the second parameter's text. -/
def cmdC7 : XmlNode :=
  XmlNode.elem "command" []
    [XmlNode.elem "param" [] [],
     XmlNode.elem "param" [] [XmlNode.text "int"]]

/-- C7, counterexample: `cmdC7` has two `<param>` children whose scraped
texts are `""` and `"int"`; the claim's rendering joins them to `", int"`,
but the code renders `"int"` because the comma is only emitted after
nonempty accumulated text. -/
theorem claim7_counterexample :
    (childrenNamed "param" cmdC7).map scrape_proto_text = ["", "int"] ∧
    command_params cmdC7 = "int" ∧
    params_spec cmdC7 = ", int" ∧
    command_params cmdC7 ≠ params_spec cmdC7 := by
  refine ⟨by decide, by decide, by decide, by decide⟩

/-- A well-formed two-parameter command for the C7 witness. -/
def cmdC7w : XmlNode :=
  XmlNode.elem "command" []
    [XmlNode.elem "param" []
      [XmlNode.text "const ", XmlNode.elem "ptype" [] [XmlNode.text "GLint"],
       XmlNode.text " x"],
     XmlNode.elem "param" [] [XmlNode.text "GLuint y"]]

/-- C7, witness: `claim7_params_rendering` on a concrete command whose
parameters scrape to nonempty text. -/
theorem claim7_witness :
    (∀ pn ∈ childrenNamed "param" cmdC7w, scrape_proto_text pn ≠ "") ∧
    command_params cmdC7w = params_spec cmdC7w ∧
    command_params cmdC7w = "const GLint x, GLuint y" :=
  ⟨by decide, claim7_params_rendering cmdC7w (by decide), by decide⟩

/-!  Claim C8: template substitution. -/

theorem headMatch_append_self (pat rest : List Char) :
    headMatch pat (pat ++ rest) = true := by
  induction pat with
  | nil => rfl
  | cons p ps ih =>
    show (p == p && headMatch ps (ps ++ rest)) = true
    rw [ih]
    simp

theorem replaceAllFuel_no_match (pat rep : List Char) :
    ∀ (s : List Char) (fuel : Nat), containsPat pat s = false →
      replaceAllFuel pat rep fuel s = s := by
  intro s
  induction s with
  | nil => intro fuel _; cases fuel <;> rfl
  | cons c cs ih =>
    intro fuel h
    have hh : headMatch pat (c :: cs) = false := by
      unfold containsPat at h
      exact (Bool.or_eq_false_iff.mp h).1
    have ht : containsPat pat cs = false := by
      unfold containsPat at h
      exact (Bool.or_eq_false_iff.mp h).2
    cases fuel with
    | zero => rfl
    | succ f =>
      show (if headMatch pat (c :: cs) then
          rep ++ replaceAllFuel pat rep f (List.drop (pat.length - 1) cs)
        else c :: replaceAllFuel pat rep f cs) = c :: cs
      rw [hh]
      simp only [Bool.false_eq_true, if_false]
      rw [ih f ht]

theorem replaceAll_no_match {pat : List Char} (rep : List Char) {s : List Char}
    (h : containsPat pat s = false) : replaceAll pat rep s = s :=
  replaceAllFuel_no_match pat rep s s.length h

theorem replaceAllFuel_first {pat : List Char} (rep : List Char) (b : List Char)
    (hpat : pat ≠ []) (hb : containsPat pat b = false) :
    ∀ (a : List Char) (fuel : Nat), a.length < fuel →
      (∀ i < a.length, headMatch pat (List.drop i (a ++ pat ++ b)) = false) →
      replaceAllFuel pat rep fuel (a ++ pat ++ b) = a ++ rep ++ b := by
  intro a
  induction a with
  | nil =>
    intro fuel hfuel _
    cases fuel with
    | zero => exact absurd hfuel (by simp)
    | succ f =>
      cases pat with
      | nil => exact absurd rfl hpat
      | cons p ps =>
        show replaceAllFuel (p :: ps) rep (f + 1) (([] ++ (p :: ps)) ++ b) = ([] ++ rep) ++ b
        rw [List.nil_append, List.nil_append]
        show (if headMatch (p :: ps) ((p :: ps) ++ b) then
            rep ++ replaceAllFuel (p :: ps) rep f (List.drop ((p :: ps).length - 1) (ps ++ b))
          else _) = rep ++ b
        rw [headMatch_append_self]
        simp only [if_true]
        have hdrop : List.drop ((p :: ps).length - 1) (ps ++ b) = b := by
          simp only [List.length_cons, Nat.add_sub_cancel]
          exact List.drop_left ps b
        rw [hdrop, replaceAllFuel_no_match (p :: ps) rep b f hb]
  | cons x a ih =>
    intro fuel hfuel hA
    cases fuel with
    | zero => exact absurd hfuel (by simp)
    | succ f =>
      have hsx : ((x :: a) ++ pat) ++ b = x :: ((a ++ pat) ++ b) := by simp
      rw [hsx]
      have hh : headMatch pat (x :: ((a ++ pat) ++ b)) = false := by
        have := hA 0 (by simp)
        rw [List.drop_zero] at this
        rw [hsx] at this
        exact this
      show (if headMatch pat (x :: ((a ++ pat) ++ b)) then _
        else x :: replaceAllFuel pat rep f ((a ++ pat) ++ b)) = (x :: a) ++ rep ++ b
      rw [hh]
      simp only [Bool.false_eq_true, if_false]
      have ha' : ∀ i < a.length, headMatch pat (List.drop i ((a ++ pat) ++ b)) = false := by
        intro i hi
        have := hA (i + 1) (by simp; omega)
        rw [hsx, List.drop_succ_cons] at this
        exact this
      rw [ih f (by simp at hfuel; omega) ha']
      simp

theorem replaceAll_first {pat : List Char} (rep : List Char) (a b : List Char)
    (hpat : pat ≠ [])
    (hA : ∀ i < a.length, headMatch pat (List.drop i (a ++ pat ++ b)) = false)
    (hb : containsPat pat b = false) :
    replaceAll pat rep (a ++ pat ++ b) = a ++ rep ++ b := by
  unfold replaceAll
  apply replaceAllFuel_first rep b hpat hb a _ _ hA
  have : pat.length ≠ 0 := fun hz => hpat (List.length_eq_zero.mp hz)
  simp [List.length_append]
  omega

theorem foldl_replace_no_match :
    ∀ (bs : List (String × String)) (tmpl : List Char),
      (∀ pr ∈ bs, containsPat pr.1.data tmpl = false) →
      bs.foldl (fun text pr => replaceAll pr.1.data pr.2.data text) tmpl = tmpl := by
  intro bs
  induction bs with
  | nil => intro tmpl _; rfl
  | cons pr bs ih =>
    intro tmpl h
    rw [List.foldl_cons, replaceAll_no_match pr.2.data (h pr (by simp))]
    exact ih tmpl (fun q hq => h q (by simp [hq]))

theorem placeholderBindings_fst (o : Output) :
    (placeholderBindings o).map Prod.fst = knownPlaceholders := rfl

/-- C9: `generate_manifest` and `generate_output` are pure functions of the
registry document and the target — equal inputs give equal manifests,
equal diagnostics and equal output bundles; the embedding has no other
inputs (no clock, environment or hidden state to depend on). -/
theorem claim9_determinism (t1 t2 : Target) (d1 d2 : XmlNode)
    (ht : t1 = t2) (hd : d1 = d2) :
    generate_manifest t1 d1 = generate_manifest t2 d2 ∧
    generate_output (generate_manifest t1 d1).1 t1 d1 =
      generate_output (generate_manifest t2 d2).1 t2 d2 := by
  subst ht
  subst hd
  exact ⟨rfl, rfl⟩

/-- C9, witness: two runs on the C1 registry and target agree. -/
theorem claim9_witness :
    generate_manifest tgtC1 docC1 = generate_manifest tgtC1 docC1 ∧
    generate_output (generate_manifest tgtC1 docC1).1 tgtC1 docC1 =
      generate_output (generate_manifest tgtC1 docC1).1 tgtC1 docC1 :=
  claim9_determinism tgtC1 tgtC1 docC1 docC1 rfl rfl

/-!  Claim C10: requested extensions absent from the registry. -/

theorem foldl_congr_fun {α β : Type} {f g : β → α → β}
    (h : ∀ b a, f b a = g b a) :
    ∀ (l : List α) (b : β), l.foldl f b = l.foldl g b := by
  intro l
  induction l with
  | nil => intro b; rfl
  | cons a l ih => intro b; rw [List.foldl_cons, List.foldl_cons, h, ih]

theorem update_manifest_profile_congr (m : Manifest) {t1 t2 : Target}
    (h : t1.profile = t2.profile) (node : XmlNode) :
    update_manifest m t1 node = update_manifest m t2 node := by
  unfold update_manifest
  simp only [h]

theorem featureStep_drop_requested (t : Target) (x : String) (m : Manifest)
    (fn : XmlNode) :
    featureStep { t with extensions := t.extensions.filter (fun y => y ≠ x) } m fn =
      featureStep t m fn := by
  unfold featureStep
  dsimp only
  rw [@update_manifest_profile_congr m { t with extensions := t.extensions.filter (fun y => y ≠ x) } t rfl fn]

theorem typeStep_drop_requested (t : Target) (x : String) (m : Manifest)
    (tn : XmlNode) :
    typeStep { t with extensions := t.extensions.filter (fun y => y ≠ x) } m tn =
      typeStep t m tn := by
  unfold typeStep
  dsimp only

theorem extensionStep_drop_requested (t : Target) (x : String) (en : XmlNode)
    (hne : attr "name" en ≠ x) (acc : Manifest × List String) :
    extensionStep { t with extensions := t.extensions.filter (fun y => y ≠ x) } acc en =
      extensionStep t acc en := by
  unfold extensionStep
  dsimp only
  have hmem : (attr "name" en ∈ t.extensions.filter (fun y => y ≠ x)) ↔
      attr "name" en ∈ t.extensions := by
    rw [List.mem_filter]
    simp [hne]
  have hupd : update_manifest acc.1
      { t with extensions := t.extensions.filter (fun y => y ≠ x) } en =
      update_manifest acc.1 t en :=
    update_manifest_profile_congr acc.1 rfl en
  by_cases hm : attr "name" en ∈ t.extensions
  · rw [if_pos hm, if_pos (hmem.mpr hm), hupd]
  · rw [if_neg hm, if_neg (fun hc => hm (hmem.mp hc))]

theorem extensionPass_drop_requested (t : Target) (x : String) :
    ∀ (ens : List XmlNode) (acc : Manifest × List String),
      (∀ en ∈ ens, attr "name" en ≠ x) →
      extensionPass { t with extensions := t.extensions.filter (fun y => y ≠ x) } acc ens =
        extensionPass t acc ens := by
  intro ens
  induction ens with
  | nil => intro acc _; rfl
  | cons en ens ih =>
    intro acc h
    unfold extensionPass
    rw [List.foldl_cons, List.foldl_cons,
      extensionStep_drop_requested t x en (h en (by simp)) acc]
    exact ih (extensionStep t acc en) (fun g hg => h g (by simp [hg]))

/-!  Provenance of the extension list and the diagnostics. -/

theorem featureStep_extensions (target : Target) (m : Manifest) (fn : XmlNode) :
    (featureStep target m fn).extensions = m.extensions := by
  by_cases h : acceptsFeature target fn
  · rw [featureStep_accepted h]
    exact update_extensions m target fn
  · rw [featureStep_not_accepted h]

theorem featurePass_extensions (target : Target) (fns : List XmlNode) (m : Manifest) :
    (featurePass target m fns).extensions = m.extensions :=
  foldl_field_inv Manifest.extensions (featureStep target)
    (featureStep_extensions target) fns m

theorem commandStep_extensions (m : Manifest) (cn : XmlNode) :
    (commandStep m cn).extensions = m.extensions := by
  unfold commandStep
  split <;> rfl

theorem commandPass_extensions (m : Manifest) (cns : List XmlNode) :
    (commandPass m cns).extensions = m.extensions :=
  foldl_field_inv Manifest.extensions commandStep commandStep_extensions cns m

theorem typeStep_extensions (target : Target) (m : Manifest) (tn : XmlNode) :
    (typeStep target m tn).extensions = m.extensions := by
  unfold typeStep
  split <;> rfl

theorem typePass_extensions (target : Target) (m : Manifest) (tns : List XmlNode) :
    (typePass target m tns).extensions = m.extensions :=
  foldl_field_inv Manifest.extensions (typeStep target) (typeStep_extensions target) tns m

theorem extensionStep_extensions_provenance (target : Target)
    (acc : Manifest × List String) (en : XmlNode) :
    ∀ y ∈ (extensionStep target acc en).1.extensions,
      y ∈ acc.1.extensions ∨ y = attr "name" en := by
  intro y hy
  by_cases hacc : acceptsExtension target en
  · rw [extensionStep_accepted hacc] at hy
    have : y ∈ (update_manifest acc.1 target en).extensions ++ [attr "name" en] := hy
    rw [update_extensions] at this
    rcases List.mem_append.mp this with h | h
    · exact Or.inl h
    · exact Or.inr (List.mem_singleton.mp h)
  · rw [extensionStep_manifest_not_accepted hacc] at hy
    exact Or.inl hy

theorem extensionPass_extensions_provenance (target : Target) :
    ∀ (ens : List XmlNode) (acc : Manifest × List String),
      ∀ y ∈ (extensionPass target acc ens).1.extensions,
        y ∈ acc.1.extensions ∨ ∃ en ∈ ens, y = attr "name" en := by
  intro ens
  induction ens with
  | nil => intro acc y hy; exact Or.inl hy
  | cons en ens ih =>
    intro acc y hy
    unfold extensionPass at hy
    rw [List.foldl_cons] at hy
    rcases ih (extensionStep target acc en) y hy with h | ⟨g, hg, hy'⟩
    · rcases extensionStep_extensions_provenance target acc en y h with h | h
      · exact Or.inl h
      · exact Or.inr ⟨en, by simp, h⟩
    · exact Or.inr ⟨g, by simp [hg], hy'⟩

theorem extensionStep_diag_provenance (target : Target)
    (acc : Manifest × List String) (en : XmlNode) :
    ∀ d ∈ (extensionStep target acc en).2,
      d ∈ acc.2 ∨ d = diagLine (attr "name" en) := by
  intro d hd
  by_cases h1 : attr "name" en ∈ target.extensions
  · by_cases h2 : (target.api ++ target.profile) ∈ splitPipe (attr "supported" en)
    · rw [extensionStep_accepted ⟨h1, h2⟩] at hd
      exact Or.inl hd
    · rw [extensionStep_unsupported h1 h2] at hd
      rcases List.mem_append.mp hd with h | h
      · exact Or.inl h
      · exact Or.inr (List.mem_singleton.mp h)
  · rw [extensionStep_not_requested h1] at hd
    exact Or.inl hd

theorem extensionPass_diag_provenance (target : Target) :
    ∀ (ens : List XmlNode) (acc : Manifest × List String),
      ∀ d ∈ (extensionPass target acc ens).2,
        d ∈ acc.2 ∨ ∃ en ∈ ens, d = diagLine (attr "name" en) := by
  intro ens
  induction ens with
  | nil => intro acc d hd; exact Or.inl hd
  | cons en ens ih =>
    intro acc d hd
    unfold extensionPass at hd
    rw [List.foldl_cons] at hd
    rcases ih (extensionStep target acc en) d hd with h | ⟨g, hg, hd'⟩
    · rcases extensionStep_diag_provenance target acc en d h with h | h
      · exact Or.inl h
      · exact Or.inr ⟨en, by simp, h⟩
    · exact Or.inr ⟨g, by simp [hg], hd'⟩

/-- The diagnostic line determines the extension name it was printed for. -/
theorem diagLine_inj {a b : String} (h : diagLine a = diagLine b) : a = b := by
  unfold diagLine at h
  have hd := congrArg String.data h
  simp only [String.data_append] at hd
  exact strExt (List.append_cancel_left (List.append_cancel_right hd))

/-- C10: a requested extension name matching no `<extension>` element of
the registry is silently ignored — resolving with it is identical to
resolving without it, it never enters the accepted-extension list, and no
diagnostic line mentions it; every other requested extension is processed
as before. -/
theorem claim10_unknown_extension (t : Target) (doc : XmlNode) (x : String)
    (hx : x ∈ t.extensions)
    (habsent : ∀ en ∈ selectExtensions doc, attr "name" en ≠ x) :
    generate_manifest t doc =
      generate_manifest { t with extensions := t.extensions.filter (fun y => y ≠ x) } doc
    ∧ x ∉ (generate_manifest t doc).1.extensions
    ∧ ∀ d ∈ (generate_manifest t doc).2, d ≠ diagLine x := by
  refine ⟨?_, ?_, ?_⟩
  · unfold generate_manifest manifestAfterCommands manifestAfterExtensions manifestAfterFeatures featurePass typePass
    rw [foldl_congr_fun (featureStep_drop_requested t x) (selectFeatures doc) emptyManifest,
      extensionPass_drop_requested t x (selectExtensions doc) _ habsent,
      foldl_congr_fun (typeStep_drop_requested t x)]
  · intro hmem
    have h1 : (generate_manifest t doc).1.extensions =
        (manifestAfterExtensions t doc).1.extensions := by
      unfold generate_manifest manifestAfterCommands
      rw [typePass_extensions, commandPass_extensions]
    rw [h1] at hmem
    rcases extensionPass_extensions_provenance t (selectExtensions doc) _ x hmem with h | ⟨en, hen, hx'⟩
    · unfold manifestAfterFeatures at h
      rw [featurePass_extensions] at h
      cases h
    · exact habsent en hen hx'.symm
  · intro d hd hdx
    have h2 : (generate_manifest t doc).2 = (manifestAfterExtensions t doc).2 := rfl
    rw [h2] at hd
    rcases extensionPass_diag_provenance t (selectExtensions doc) _ d hd with h | ⟨en, hen, hd'⟩
    · cases h
    · subst hdx
      exact habsent en hen (diagLine_inj hd').symm

/-- The C10 registry: one real extension, `GL_REAL`. -/
def docC10 : XmlNode :=
  XmlNode.elem "" [] [XmlNode.elem "registry" []
    [XmlNode.elem "extensions" []
      [XmlNode.elem "extension" [("name", "GL_REAL"), ("supported", "gl")] []]]]

/-- The C10 target, requesting both the unknown `GL_NOPE` and `GL_REAL`. -/
def tgtC10 : Target :=
  { api := "gl", profile := "", version := ⟨1, 0⟩,
    extensions := ["GL_NOPE", "GL_REAL"] }

/-- C10, witness: `claim10_unknown_extension` on a concrete registry — the
unknown requested name changes nothing, and `GL_REAL` is still accepted. -/
theorem claim10_witness :
    "GL_NOPE" ∈ tgtC10.extensions ∧
    (generate_manifest tgtC10 docC10 =
      generate_manifest
        { tgtC10 with extensions := tgtC10.extensions.filter (fun y => y ≠ "GL_NOPE") } docC10
     ∧ "GL_NOPE" ∉ (generate_manifest tgtC10 docC10).1.extensions
     ∧ ∀ d ∈ (generate_manifest tgtC10 docC10).2, d ≠ diagLine "GL_NOPE") ∧
    (generate_manifest tgtC10 docC10).1.extensions = ["GL_REAL"] :=
  ⟨by decide,
   claim10_unknown_extension tgtC10 docC10 "GL_NOPE" (by decide) (by decide),
   by decide⟩
